import Mathlib

/-!
Verification development for the crews-live repository: a four-stage
sequential code-generation job orchestrator.  The definitions below are a
shallow embedding of the TypeScript sources:

* `src/attached_assets/index.ts_1757792188503.ts` (shared utilities:
  validation, sanitization, the language → extension table, artifact
  assembly),
* `src/server/services/agents.ts` (the `AIAgent` class and the fixed list
  of four agents),
* `src/server/services/crew.ts` (the `CrewService` orchestrator: task
  creation, sequential execution, completion / failure handling, and the
  placeholder `generateCodeFiles`),
* `src/attached_assets/enhanced-code-generation_1757792188503.ts`
  (the enhanced service: validation + sanitization on submission, and
  `cancelJob`).

JavaScript strings are modelled as Lean `String` / `List Char`; string
indices therefore count characters rather than UTF-16 code units, and
`toLowerCase` / `trim` are modelled for the ASCII range (the only range the
repository's fixed role names and language table use).  Wall-clock time is
modelled as a `Nat` of milliseconds; a `setTimeout(f, d)` scheduled at time
`t` is modelled as `f` taking effect at exactly `t + d`.
-/

namespace CrewsLive

/-! ### JavaScript string primitives -/

/-- Characters treated as whitespace by JavaScript's `trim()` and the regex
class `\s` (modelled for the common members: space, tab, newline, vertical
tab, form feed, carriage return, no-break space, BOM). -/
def isJsWhitespace (c : Char) : Bool :=
  c = ' ' || c = '\t' || c = '\n' || c = '\x0b' || c = '\x0c' || c = '\r' ||
    c = ' ' || c = '﻿'

/-- JavaScript `String.prototype.trim()` on a character list: drop leading
and trailing whitespace. -/
def jsTrimList (l : List Char) : List Char :=
  ((l.dropWhile isJsWhitespace).reverse.dropWhile isJsWhitespace).reverse

/-- JavaScript `String.prototype.trim()`. -/
def jsTrim (s : String) : String :=
  String.mk (jsTrimList s.data)

/-- JavaScript `String.prototype.toLowerCase()`, modelled for the ASCII
range via `Char.toLower`. -/
def lowerString (s : String) : String :=
  String.mk (s.data.map Char.toLower)

/-- Length of the longest prefix of `l` whose characters all satisfy `p`. -/
def countLeading (p : Char → Bool) : List Char → Nat
  | [] => 0
  | c :: cs => if p c then countLeading p cs + 1 else 0

/-- Global regex replacement of every maximal nonempty run of characters
satisfying `p` by the single character `repl` (the shape of
`replace(/X+/g, "r")`). -/
def replaceRuns (p : Char → Bool) (repl : Char) : List Char → List Char
  | [] => []
  | c :: cs =>
    if p c then repl :: replaceRuns p repl (cs.drop (countLeading p cs))
    else c :: replaceRuns p repl cs
termination_by l => l.length
decreasing_by
  · simp only [List.length_drop, List.length_cons]
    omega
  · simp only [List.length_cons]
    omega

/-- Global replacement `replace(/\n{3,}/g, "\n\n")`: every maximal run of
three or more newlines becomes exactly two newlines; shorter runs are kept
as they are. -/
def collapseNewlineRuns : List Char → List Char
  | [] => []
  | c :: cs =>
    if c = '\n' then
      (if countLeading (fun d => d = '\n') cs + 1 ≥ 3 then ['\n', '\n']
       else List.replicate (countLeading (fun d => d = '\n') cs + 1) '\n') ++
        collapseNewlineRuns (cs.drop (countLeading (fun d => d = '\n') cs))
    else c :: collapseNewlineRuns cs
termination_by l => l.length
decreasing_by
  · simp only [List.length_drop, List.length_cons]
    omega
  · simp only [List.length_cons]
    omega

/-! ### Shared utilities (`src/attached_assets/index.ts_1757792188503.ts`) -/

/-- Generation request value object from `src/shared/types.ts` (the `Date`
timestamp field is irrelevant to every claim and omitted). -/
structure GenerationRequest where
  jobId : String
  requirements : String
  framework : String
  language : String
  deriving DecidableEq

/-- `getFileExtension` (utils, lines 10–28): the fixed language → file
extension table, consulted with the lower-cased language, defaulting to
`txt`. -/
def getFileExtension (language : String) : String :=
  if lowerString language = "javascript" then "js"
  else if lowerString language = "typescript" then "ts"
  else if lowerString language = "python" then "py"
  else if lowerString language = "java" then "java"
  else if lowerString language = "csharp" then "cs"
  else if lowerString language = "cpp" then "cpp"
  else if lowerString language = "c" then "c"
  else if lowerString language = "go" then "go"
  else if lowerString language = "rust" then "rs"
  else if lowerString language = "php" then "php"
  else if lowerString language = "ruby" then "rb"
  else if lowerString language = "swift" then "swift"
  else if lowerString language = "kotlin" then "kt"
  else "txt"

/-- JavaScript truthiness test `!field || field.trim().length === 0` used by
`validateGenerationRequest` on an optional string field. -/
def isBlankField : Option String → Bool
  | none => true
  | some s => s = "" || (jsTrim s).length = 0

/-- `validateGenerationRequest` (utils, lines 34–54): collects every
violated field rule, in source order, over a partial request. -/
def validateGenerationRequest (requirements framework language : Option String) :
    List String :=
  (if isBlankField requirements then ["Requirements are required and cannot be empty"] else []) ++
  (if isBlankField framework then ["Framework is required and cannot be empty"] else []) ++
  (if isBlankField language then ["Language is required and cannot be empty"] else []) ++
  (match requirements with
   | none => []
   | some r =>
     if r ≠ "" ∧ r.length > 10000 then ["Requirements are too long (maximum 10,000 characters)"]
     else [])

/-- `sanitizeInput` (utils, lines 56–62): trim, strip `<` and `>`, collapse
runs of three or more newlines to two, truncate to 10,000 characters. -/
def sanitizeInput (input : String) : String :=
  String.mk
    ((collapseNewlineRuns
        ((jsTrimList input.data).filter (fun c => !(c = '<' || c = '>')))).take 10000)

/-- One agent's output as consumed by artifact assembly. -/
structure RoleOutput where
  role : String
  content : String
  deriving DecidableEq

/-- JavaScript object property assignment `m[k] = v` on a string-keyed
record: overwrite in place when the key exists, append otherwise. -/
def setKey (m : List (String × String)) (k v : String) : List (String × String) :=
  if m.any (fun p => p.1 = k) then m.map (fun p => if p.1 = k then (k, v) else p)
  else m ++ [(k, v)]

/-- Property lookup `m[k]` on the record model. -/
def getKey (m : List (String × String)) (k : String) : Option String :=
  (m.find? (fun p => p.1 = k)).map (fun p => p.2)

/-- Hexadecimal digit for `jsonEscapeChar`. -/
def hexDigit (n : Nat) : Char :=
  if n < 10 then Char.ofNat (48 + n) else Char.ofNat (87 + n)

/-- JSON string-character escaping as performed by `JSON.stringify`. -/
def jsonEscapeChar (c : Char) : List Char :=
  if c = '"' then ['\\', '"']
  else if c = '\\' then ['\\', '\\']
  else if c = '\n' then ['\\', 'n']
  else if c = '\r' then ['\\', 'r']
  else if c = '\t' then ['\\', 't']
  else if c = '\x08' then ['\\', 'b']
  else if c = '\x0c' then ['\\', 'f']
  else if c.toNat < 32 then
    ['\\', 'u', '0', '0', hexDigit (c.toNat / 16), hexDigit (c.toNat % 16)]
  else [c]

/-- A JSON string literal (quotes plus escaped body), as `JSON.stringify`
renders a string value. -/
def jsonStr (s : String) : String :=
  "\"" ++ String.mk (s.data.map jsonEscapeChar).flatten ++ "\""

/-- The `packageName` computation inside `generatePackageJson` (utils,
lines 228–232): lower-case, keep only `[a-z0-9\s]`, replace whitespace runs
by `-`, truncate to 50 characters. -/
def packageName (requirements : String) : String :=
  String.mk
    ((replaceRuns isJsWhitespace '-'
        (((lowerString requirements).data).filter
          (fun c => ('a' ≤ c && c ≤ 'z') || ('0' ≤ c && c ≤ '9') || isJsWhitespace c))).take 50)

/-- `generatePackageJson` (utils, lines 227–249): the exact
`JSON.stringify(..., null, 2)` output for the fixed package manifest. -/
def generatePackageJson (request : GenerationRequest) : String :=
  "\x7b\n  \"name\": " ++
    jsonStr (if packageName request.requirements = "" then "generated-app"
             else packageName request.requirements) ++
  ",\n  \"version\": \"1.0.0\",\n  \"description\": " ++
    jsonStr (String.mk (request.requirements.data.take 200)) ++
  ",\n  \"main\": " ++ jsonStr ("main." ++ getFileExtension request.language) ++
  ",\n  \"scripts\": \x7b\n    \"start\": \"node main.js\",\n    \"dev\": \"nodemon main.js\",\n    \"test\": \"jest\",\n    \"build\": \"tsc\"\n  \x7d,\n  \"keywords\": [\n    " ++
    jsonStr request.framework ++ ",\n    " ++ jsonStr request.language ++
  ",\n    \"generated\",\n    \"ai\"\n  ],\n  \"author\": \"CrewCodeGen\",\n  \"license\": \"MIT\"\n\x7d"

/-- `generateReadme` (utils, lines 194–225); the `codeContent` argument is
accepted and ignored exactly as in the source. -/
def generateReadme (request : GenerationRequest) (_codeContent : String) : String :=
  "# " ++ request.framework ++ " Application\n\n## Description\n" ++
  request.requirements ++
  "\n\n## Technology Stack\n- **Framework:** " ++ request.framework ++
  "\n- **Language:** " ++ request.language ++
  "\n\n## Installation\n\n```bash\nnpm install\n```\n\n## Usage\n\n```bash\nnpm start\n```\n\n## Features\n- Production-ready code\n- Modern architecture\n- Comprehensive testing\n- Security best practices\n\n## Generated by CrewCodeGen\nThis application was generated using AI-powered multi-agent collaboration.\n"

/-- The file name used by `compileCodeFiles`' `default` switch arm:
`role.toLowerCase().replace(/\s+/g, "_") + ".md"`. -/
def defaultArtifactName (role : String) : String :=
  String.mk (replaceRuns isJsWhitespace '_' (lowerString role).data) ++ ".md"

/-- One iteration of the `agentOutputs.forEach` switch in `compileCodeFiles`
(utils, lines 169–189). -/
def compileStep (ext : String) (request : GenerationRequest)
    (m : List (String × String)) (o : RoleOutput) : List (String × String) :=
  if lowerString o.role = "product manager" then
    setKey m "PROJECT_SPECIFICATION.md" o.content
  else if lowerString o.role = "solution architect" then
    setKey m "ARCHITECTURE.md" o.content
  else if lowerString o.role = "senior developer" then
    setKey (setKey (setKey m ("main." ++ ext) o.content)
        "README.md" (generateReadme request o.content))
      "package.json" (generatePackageJson request)
  else if lowerString o.role = "qa engineer" then
    setKey (setKey m ("tests." ++ ext) o.content) "TEST_PLAN.md" o.content
  else
    setKey m (defaultArtifactName o.role) o.content

/-- `compileCodeFiles` (utils, lines 162–192): folds the agent outputs into
the artifact name → content record, with the extension computed once from
the request's language. -/
def compileCodeFiles (agentOutputs : List RoleOutput) (request : GenerationRequest) :
    List (String × String) :=
  agentOutputs.foldl (compileStep (getFileExtension request.language) request) []

/-! ### Agents (`src/server/services/agents.ts`) -/

/-- Agent configuration from `src/shared/types.ts` (the `tools`, `verbose`,
`allowDelegation` and `systemPrompt` fields default to empty / generated
values and are read by no claim, so they are omitted). -/
structure Agent where
  id : String
  role : String
  goal : String
  backstory : String
  deriving DecidableEq

/-- Product Manager canned response template (`agents.ts`, lines 57–87). -/
def productManagerResponse : String :=
"# Product Requirements Analysis

## Project Overview
Based on the requirements provided, I\x27ve conducted a comprehensive analysis of the project scope and deliverables.

## Key Features Identified
1. **Core Functionality**: Primary features that deliver immediate business value
2. **User Experience**: Interface design and user interaction patterns
3. **Technical Requirements**: Performance, scalability, and security needs
4. **Integration Points**: External APIs and third-party services

## User Stories
- As a user, I want to easily navigate the application
- As an admin, I need comprehensive control over the system
- As a developer, I require clear documentation and APIs

## Acceptance Criteria
✅ All core features must be fully functional
✅ Responsive design for mobile and desktop
✅ Performance optimization for fast loading
✅ Security implementation following best practices

## Timeline Estimate
Based on complexity analysis: **2-3 weeks** for MVP delivery

## Risk Assessment
- **Low Risk**: Standard features with proven technologies
- **Medium Risk**: Complex integrations requiring thorough testing
- **High Risk**: Performance requirements under heavy load

*Analysis completed by Product Manager Agent*"

/-- Solution Architect canned response template (`agents.ts`, lines 89–130). -/
def solutionArchitectResponse : String :=
"# System Architecture Design

## Technology Stack Recommendation
- **Frontend**: React with TypeScript for type safety
- **Backend**: Node.js with Express for scalability
- **Database**: PostgreSQL for relational data integrity
- **Caching**: Redis for performance optimization
- **Authentication**: JWT with refresh token strategy

## System Components
```
┌─────────────────┐    ┌─────────────────┐    ┌─────────────────┐
│   Frontend      │    │   API Gateway   │    │   Microservices │
│   React/TS      │◄──►│   Express.js    │◄──►│   Business Logic│
└─────────────────┘    └─────────────────┘    └─────────────────┘
         │                       │                       │
         ▼                       ▼                       ▼
┌─────────────────┐    ┌─────────────────┐    ┌─────────────────┐
│   Static Assets │    │   Load Balancer │    │   Database      │
│   CDN/S3        │    │   Nginx/HAProxy │    │   PostgreSQL    │
└─────────────────┘    └─────────────────┘    └─────────────────┘
```

## Database Schema
- **Users**: Authentication and profile management
- **Products**: Core business entities
- **Orders**: Transaction processing
- **Audit**: System logging and monitoring

## Security Considerations
- Input validation and sanitization
- Rate limiting and DDoS protection
- Encrypted data transmission (HTTPS)
- Secure password hashing (bcrypt)

## Performance Strategy
- Server-side caching with Redis
- Database query optimization
- CDN for static assets
- Lazy loading for large datasets

*Architecture designed by Solution Architect Agent*"

/-- Senior Developer canned response template (`agents.ts`, lines 132–217). -/
def seniorDeveloperResponse : String :=
"# Implementation Details

## Project Structure
```
src/
├── components/
│   ├── common/
│   ├── forms/
│   └── layout/
├── pages/
├── services/
├── hooks/
├── utils/
└── types/
```

## Key Implementation Files

### App Component (app/layout.tsx)
```typescript\nimport React from \x27react\x27;\nimport \x7b BrowserRouter as Router, Routes, Route \x7d from \x27react-router-dom\x27;\nimport \x7b QueryClient, QueryClientProvider \x7d from \x27@tanstack/react-query\x27;\nimport \x7b AuthProvider \x7d from \x27./contexts/AuthContext\x27;\nimport Header from \x27./components/Header\x27;\nimport HomePage from \x27./pages/HomePage\x27;\nimport \x27./App.css\x27;

const queryClient = new QueryClient();

function App() \x7b
  return (
    <QueryClientProvider client=\x7bqueryClient\x7d>
      <AuthProvider>
        <Router>
          <div className=\"App\">
            <Header />
            <main>
              <Routes>
                <Route path=\"/\" element=\x7b<HomePage />\x7d />
                \x7b/* Additional routes */\x7d
              </Routes>
            </main>
          </div>
        </Router>
      </AuthProvider>
    </QueryClientProvider>
  );
\x7d

export default App;
```

### API Service Layer
```typescript\nimport axios from \x27axios\x27;

const api = axios.create(\x7b
  baseURL: process.env.REACT_APP_API_URL || \x27http://localhost:8000\x27,
  timeout: 10000,
\x7d);

api.interceptors.request.use((config) => \x7b
  const token = localStorage.getItem(\x27authToken\x27);
  if (token) \x7b
    config.headers.Authorization = `Bearer $\x7btoken\x7d`;
  \x7d
  return config;
\x7d);

export default api;
```

## Production Optimizations
- Code splitting with React.lazy()
- Bundle optimization with Webpack
- Tree shaking for unused code elimination
- Gzip compression for assets

## Testing Strategy
- Unit tests with Jest and React Testing Library
- Integration tests for API endpoints
- E2E tests with Cypress
- Performance testing with Lighthouse

*Implementation by Senior Developer Agent*"

/-- QA Engineer canned response template (`agents.ts`, lines 219–276). -/
def qaEngineerResponse : String :=
"# Quality Assurance Report

## Test Coverage Analysis
- **Unit Tests**: 95% coverage achieved
- **Integration Tests**: All API endpoints validated
- **E2E Tests**: Critical user journeys automated
- **Performance Tests**: Load testing completed

## Test Results Summary
✅ **Functional Testing**: All features working as expected
✅ **Security Testing**: No vulnerabilities detected
✅ **Performance Testing**: Meets all performance criteria
✅ **Compatibility Testing**: Cross-browser compatibility confirmed

## Automated Test Suite
```javascript
// Example unit test
describe(\x27Authentication Service\x27, () => \x7b
  test(\x27should authenticate user with valid credentials\x27, async () => \x7b
    const mockUser = \x7b email: \x27test@example.com\x27, password: \x27password123\x27 \x7d;
    const result = await authService.login(mockUser);
    expect(result.success).toBe(true);
    expect(result.token).toBeDefined();
  \x7d);
\x7d);

// Example integration test  
describe(\x27API Endpoints\x27, () => \x7b
  test(\x27GET /api/users should return user list\x27, async () => \x7b
    const response = await request(app).get(\x27/api/users\x27);
    expect(response.status).toBe(200);
    expect(Array.isArray(response.body)).toBe(true);
  \x7d);
\x7d);
```

## Performance Metrics
- **Page Load Time**: < 2 seconds
- **First Contentful Paint**: < 1.5 seconds
- **Time to Interactive**: < 3 seconds
- **Lighthouse Score**: 95+

## Security Validation
- Input sanitization verified
- SQL injection prevention tested
- XSS protection implemented
- CSRF tokens validated

## Browser Compatibility
✅ Chrome 90+
✅ Firefox 88+
✅ Safari 14+
✅ Edge 90+

## Deployment Readiness
All tests passing ✅ Ready for production deployment

*Quality assurance completed by QA Engineer Agent*"

/-- `generateRoleSpecificResponse` (`agents.ts`, lines 55–280): the
role-keyed object lookup `responses[this.role]` with its
`|| "Analysis completed for <role>"` fallback.  The prompt and context
parameters are accepted and ignored exactly as in the source. -/
def generateRoleSpecificResponse (a : Agent) (_prompt : String)
    (_context : Option String) : String :=
  if a.role = "Product Manager" then productManagerResponse
  else if a.role = "Solution Architect" then solutionArchitectResponse
  else if a.role = "Senior Developer" then seniorDeveloperResponse
  else if a.role = "QA Engineer" then qaEngineerResponse
  else "Analysis completed for " ++ a.role

/-- `AIAgent.execute` (`agents.ts`, lines 44–53): awaits a random simulated
processing delay (modelled by the unused `simulatedDelay` argument) and
returns the role-specific canned response; the body contains no throwing
path, so the promise always resolves (`Except.ok`). -/
def Agent.execute (a : Agent) (_simulatedDelay : Nat) (prompt : String)
    (context : Option String) : Except String String :=
  Except.ok (generateRoleSpecificResponse a prompt context)

/-- `createAgents` (`agents.ts`, lines 283–308): the fixed four-agent list
in its fixed order. -/
def createAgents : List Agent :=
  [{ id := "product_manager", role := "Product Manager",
     goal := "Analyze requirements and create comprehensive project specifications",
     backstory := "Experienced in translating business requirements into technical specifications with expertise in project planning and stakeholder management." },
   { id := "solution_architect", role := "Solution Architect",
     goal := "Design scalable system architecture and technical blueprints",
     backstory := "Seasoned architect with deep expertise in modern software architecture patterns, cloud technologies, and scalable system design." },
   { id := "senior_developer", role := "Senior Developer",
     goal := "Implement clean, production-ready code following best practices",
     backstory := "Expert developer with extensive experience in multiple programming languages and frameworks, focused on code quality and maintainability." },
   { id := "qa_engineer", role := "QA Engineer",
     goal := "Create comprehensive test suites and ensure code quality",
     backstory := "Expert in testing methodologies, automation frameworks, and quality assurance processes with focus on catching issues early." }]

/-! ### Orchestrator (`src/server/services/crew.ts`) -/

/-- Task status enum from `src/shared/types.ts`. -/
inductive TaskStatus
  | pending
  | in_progress
  | completed
  | failed
  deriving DecidableEq

/-- Task entity from `src/shared/types.ts` as used by `CrewService` (the
`context`, `outputFile`, `asyncExecution`, `callback` and `progress` fields
are never read by the orchestrator loop and are omitted; `startTime` /
`endTime` are wall-clock side data read by no claim). -/
structure Task where
  id : String
  description : String
  expectedOutput : String
  agent : Agent
  status : TaskStatus
  output : Option String
  deriving DecidableEq

/-- Events broadcast to connected clients (`broadcastToClients` payload
types used by `CrewService`). -/
inductive WsEvent
  | generationStarted (jobId : String)
  | agentStarted (jobId : String) (agentRole : String) (task : String)
  | agentCompleted (jobId : String) (agentRole : String) (output : String)
  | agentProgress (jobId : String) (agentRole : String) (progress : Nat)
  | generationCompleted (jobId : String)
  | generationFailed (jobId : String) (error : String)
  deriving DecidableEq

/-- Record of one `agent.execute(task.description, context)` invocation:
which role was called, with which prompt, and with which accumulated
context. -/
structure AgentCall where
  agentRole : String
  prompt : String
  callContext : String
  deriving DecidableEq

/-- `getTaskDescription` (`crew.ts`, lines 51–59). -/
def getTaskDescription (role : String) (request : GenerationRequest) : String :=
  if role = "Product Manager" then
    "Analyze the following project requirements and create comprehensive specifications: \"" ++
      request.requirements ++ "\". Framework: " ++ request.framework ++
      ", Language: " ++ request.language
  else if role = "Solution Architect" then
    "Based on the requirements analysis, design a scalable system architecture for a " ++
      request.framework ++ " application using " ++ request.language
  else if role = "Senior Developer" then
    "Implement the system architecture as production-ready code using " ++
      request.framework ++ " and " ++ request.language
  else if role = "QA Engineer" then
    "Create comprehensive test suites and quality assurance documentation for the implemented solution"
  else "Complete task for " ++ role

/-- `getExpectedOutput` (`crew.ts`, lines 61–69). -/
def getExpectedOutput (role : String) : String :=
  if role = "Product Manager" then
    "Detailed project specification with requirements, user stories, and acceptance criteria"
  else if role = "Solution Architect" then
    "System architecture diagram, technology stack recommendations, and technical blueprint"
  else if role = "Senior Developer" then
    "Complete, production-ready code implementation with proper structure and documentation"
  else if role = "QA Engineer" then
    "Comprehensive test suite, quality metrics, and deployment readiness assessment"
  else "Output for " ++ role

/-- `createTasks` (`crew.ts`, lines 40–49): one pending task per agent, in
agent-list order, with ids indexed by position. -/
def createTasks (request : GenerationRequest) : List Task :=
  createAgents.enum.map (fun ia =>
    { id := request.jobId ++ "_task_" ++ toString ia.1,
      description := getTaskDescription ia.2.role request,
      expectedOutput := getExpectedOutput ia.2.role,
      agent := ia.2,
      status := TaskStatus.pending,
      output := none })

/-- The six synthetic `agent_progress` broadcasts emitted after each
completed stage (`crew.ts`, lines 121–133). -/
def progressTicks (jobId role : String) : List WsEvent :=
  [0, 20, 40, 60, 80, 100].map (fun p => WsEvent.agentProgress jobId role p)

/-- The string appended to the accumulated context after a successful stage
(`crew.ts`, line 105). -/
def fmtOutput (role output : String) : String :=
  "\n\n" ++ role ++ " Output:\n" ++ output

/-- Result of running the `executeTasks` loop: the processed task list (in
order), the final accumulated context, the broadcast events in emission
order, every intermediate `jobStatus.tasks` snapshot (one per task-status
mutation, in order), the recorded agent invocations, and the error that
aborted the loop, if any. -/
structure RunResult where
  tasks : List Task
  finalContext : String
  events : List WsEvent
  snapshots : List (List Task)
  calls : List AgentCall
  error : Option String
  deriving DecidableEq

/-- The `for` loop body of `executeTasks` (`crew.ts`, lines 71–141),
parameterised by the behaviour `exec` of `agent.execute` (an arbitrary
resolve / reject oracle, since the orchestrator awaits an async call that
may either return output or throw).  `done` holds the already-processed
tasks (for snapshot bookkeeping), `rest` the tasks still to run, and `ctx`
the accumulated context.  A stage that fails sets the task to `failed` and
rethrows, ending the loop with `error = some e`. -/
def executeLoop (exec : Agent → String → String → Except String String)
    (agents : List Agent) (jobId : String) :
    List Task → List Task → String → RunResult
  | _done, [], ctx =>
    { tasks := [], finalContext := ctx, events := [], snapshots := [],
      calls := [], error := none }
  | done, t :: ts, ctx =>
    match agents.find? (fun a => a.id = t.agent.id) with
    | none =>
      let r := executeLoop exec agents jobId (done ++ [t]) ts ctx
      { r with tasks := t :: r.tasks }
    | some agent =>
      let started := { t with status := TaskStatus.in_progress }
      match exec agent t.description ctx with
      | Except.ok output =>
        let finishedTask :=
          { started with status := TaskStatus.completed, output := some output }
        let r := executeLoop exec agents jobId (done ++ [finishedTask]) ts
          (ctx ++ fmtOutput agent.role output)
        { tasks := finishedTask :: r.tasks,
          finalContext := r.finalContext,
          events := WsEvent.agentStarted jobId agent.role t.description ::
            WsEvent.agentCompleted jobId agent.role output ::
            (progressTicks jobId agent.role ++ r.events),
          snapshots := (done ++ started :: ts) :: (done ++ finishedTask :: ts) :: r.snapshots,
          calls := { agentRole := agent.role, prompt := t.description,
                     callContext := ctx } :: r.calls,
          error := r.error }
      | Except.error e =>
        let failedTask := { started with status := TaskStatus.failed }
        { tasks := failedTask :: ts,
          finalContext := ctx,
          events := [WsEvent.agentStarted jobId agent.role t.description],
          snapshots := [done ++ started :: ts, done ++ failedTask :: ts],
          calls := [{ agentRole := agent.role, prompt := t.description,
                      callContext := ctx }],
          error := some e }

/-- Job status enum of `JobStatus.status` in `src/shared/types.ts` as used
by `CrewService` (`in_progress` at submission, then `completed` or
`failed`). -/
inductive JobStatusKind
  | in_progress
  | completed
  | failed
  deriving DecidableEq

/-- The `JobStatus` record held in `CrewService.activeJobs` (the numeric
`progress` field and wall-clock `startTime` are read by no claim and
omitted). -/
structure JobStatusModel where
  jobId : String
  status : JobStatusKind
  tasks : List Task
  deriving DecidableEq

/-- Outcome of one whole `startGeneration` run (`crew.ts`, lines 13–38):
the final registry entry for the job, the full broadcast trace, the task
snapshots and agent invocations of the loop, and the eviction deadline
scheduled by `completeGeneration` (`failGeneration` schedules none). -/
structure GenOutcome where
  job : JobStatusModel
  events : List WsEvent
  snapshots : List (List Task)
  calls : List AgentCall
  evictAt : Option Nat
  error : Option String
  deriving DecidableEq

/-- `startGeneration` composed with `executeTasks` and its
`completeGeneration` / `failGeneration` continuations (`crew.ts`,
lines 13–38, 143–190).  `now` is the wall-clock time at which the terminal
state is reached; `completeGeneration` schedules eviction `300000` ms
later, `failGeneration` schedules no eviction. -/
def startGeneration (exec : Agent → String → String → Except String String)
    (now : Nat) (request : GenerationRequest) : GenOutcome :=
  let r := executeLoop exec createAgents request.jobId [] (createTasks request) ""
  match r.error with
  | none =>
    { job := { jobId := request.jobId, status := JobStatusKind.completed, tasks := r.tasks },
      events := WsEvent.generationStarted request.jobId ::
        (r.events ++ [WsEvent.generationCompleted request.jobId]),
      snapshots := r.snapshots,
      calls := r.calls,
      evictAt := some (now + 300000),
      error := none }
  | some e =>
    { job := { jobId := request.jobId, status := JobStatusKind.failed, tasks := r.tasks },
      events := WsEvent.generationStarted request.jobId ::
        (r.events ++ [WsEvent.generationFailed request.jobId e]),
      snapshots := r.snapshots,
      calls := r.calls,
      evictAt := none,
      error := some e }

/-- One job's slot in the `activeJobs` registry together with its pending
eviction deadline (`setTimeout(() => activeJobs.delete(jobId), 300000)`
modelled as deletion taking effect at exactly the scheduled instant). -/
structure RegistryEntry where
  job : JobStatusModel
  evictAt : Option Nat
  deriving DecidableEq

/-- `completeGeneration` (`crew.ts`, lines 143–172) restricted to its
registry effect: mark the job completed and schedule eviction 5 minutes
(300000 ms) after `now`. -/
def completeGeneration (now : Nat) (e : RegistryEntry) : RegistryEntry :=
  { job := { e.job with status := JobStatusKind.completed },
    evictAt := some (now + 300000) }

/-- `failGeneration` (`crew.ts`, lines 174–190) restricted to its registry
effect: mark the job failed.  The source broadcasts a `generation_failed`
event but, unlike `completeGeneration`, schedules no eviction timeout. -/
def failGeneration (e : RegistryEntry) : RegistryEntry :=
  { job := { e.job with status := JobStatusKind.failed },
    evictAt := e.evictAt }

/-- `getJobStatus` (`crew.ts`, lines 280–282) on a job's registry slot at
wall-clock time `t`: `none` once a scheduled eviction deadline has passed,
otherwise the stored snapshot. -/
def getJobStatusAt (t : Nat) (e : RegistryEntry) : Option JobStatusModel :=
  match e.evictAt with
  | some d => if d ≤ t then none else some e.job
  | none => some e.job

/-- A generated code file (`CodeFile` in `src/shared/types.ts`). -/
structure CodeFile where
  path : String
  language : String
  content : String
  deriving DecidableEq

/-- Fixed `src/App.tsx` placeholder content returned by `generateCodeFiles` (`crew.ts`, lines 200–226). -/
def appTsxContent : String :=
"import React from \x27react\x27;\nimport \x7b BrowserRouter as Router, Routes, Route \x7d from \x27react-router-dom\x27;\nimport \x7b QueryClient, QueryClientProvider \x7d from \x27@tanstack/react-query\x27;\nimport Header from \x27./components/Header\x27;\nimport HomePage from \x27./pages/HomePage\x27;\nimport \x27./App.css\x27;

const queryClient = new QueryClient();

function App() \x7b
  return (
    <QueryClientProvider client=\x7bqueryClient\x7d>
      <Router>
        <div className=\"App\">
          <Header />
          <main>
            <Routes>
              <Route path=\"/\" element=\x7b<HomePage />\x7d />
            </Routes>
          </main>
        </div>
      </Router>
    </QueryClientProvider>
  );
\x7d

export default App;"

/-- Fixed `src/components/Header.tsx` placeholder content returned by `generateCodeFiles` (`crew.ts`, lines 231–251). -/
def headerTsxContent : String :=
"import React from \x27react\x27;\nimport \x7b Link \x7d from \x27react-router-dom\x27;

const Header: React.FC = () => \x7b
  return (
    <header className=\"bg-blue-600 text-white p-4\">
      <div className=\"container mx-auto flex justify-between items-center\">
        <Link to=\"/\" className=\"text-xl font-bold\">
          My App
        </Link>
        <nav>
          <Link to=\"/\" className=\"mx-2 hover:underline\">
            Home
          </Link>
        </nav>
      </div>
    </header>
  );
\x7d;

export default Header;"

/-- Fixed `package.json` placeholder content returned by `generateCodeFiles` (`crew.ts`, lines 256–273). -/
def packageJsonContent : String :=
"\x7b
  \"name\": \"generated-app\",
  \"version\": \"1.0.0\",
  \"private\": true,
  \"dependencies\": \x7b
    \"react\": \"^18.2.0\",
    \"react-dom\": \"^18.2.0\",
    \"react-router-dom\": \"^6.8.0\",
    \"@tanstack/react-query\": \"^4.24.0\",
    \"typescript\": \"^4.9.5\"
  \x7d,
  \"scripts\": \x7b
    \"start\": \"react-scripts start\",
    \"build\": \"react-scripts build\",
    \"test\": \"react-scripts test\",
    \"eject\": \"react-scripts eject\"
  \x7d
\x7d"

/-- `generateCodeFiles` (`crew.ts`, lines 192–278): ignores the job's
actual stage outputs and returns a fixed three-file placeholder list (the
source comment reads "For now, we'll return structured examples"). -/
def generateCodeFiles (_jobStatus : JobStatusModel) : List CodeFile :=
  [{ path := "src/App.tsx", language := "typescript", content := appTsxContent },
   { path := "src/components/Header.tsx", language := "typescript",
     content := headerTsxContent },
   { path := "package.json", language := "json", content := packageJsonContent }]

/-! ### Enhanced service (`src/attached_assets/enhanced-code-generation_1757792188503.ts`) -/

/-- Job status values stored by the enhanced service
(`running` / `completed` / `failed` / `cancelled`). -/
inductive EnhancedStatus
  | running
  | completed
  | failed
  | cancelled
  deriving DecidableEq

/-- One entry of the enhanced service's `activeJobs` map (the `startTime`,
`duration` and `error` bookkeeping fields are read by no claim and
omitted). -/
structure EnhancedJob where
  request : GenerationRequest
  status : EnhancedStatus
  endTime : Option Nat
  deriving DecidableEq

/-- Shape of `createSuccessResponse` / `createErrorResponse` as returned by
`cancelJob`: either a success payload carrying the job id and its new
status string, or an error message. -/
inductive ServiceResult
  | ok (jobId : String) (status : String)
  | err (message : String)
  deriving DecidableEq

/-- Everything `cancelJob` does: the updated registry slot for the job, the
returned response, and the events it emits. -/
structure CancelOutcome where
  job : Option EnhancedJob
  response : ServiceResult
  emitted : List WsEvent
  deriving DecidableEq

/-- `cancelJob` (`enhanced-code-generation.ts`, lines 202–224): unknown job
→ "Job not found"; `completed` or `failed` job → "Job already finished"
with no state change and no event; any other status (including an already
`cancelled` job) → set status to `cancelled`, stamp `endTime`, emit a
`generation_failed` event with reason "Job cancelled by user", and return
success. -/
def cancelJob (now : Nat) (jobId : String) (slot : Option EnhancedJob) :
    CancelOutcome :=
  match slot with
  | none =>
    { job := none, response := ServiceResult.err "Job not found", emitted := [] }
  | some job =>
    if job.status = EnhancedStatus.completed ∨ job.status = EnhancedStatus.failed then
      { job := some job, response := ServiceResult.err "Job already finished",
        emitted := [] }
    else
      { job := some { job with status := EnhancedStatus.cancelled, endTime := some now },
        response := ServiceResult.ok jobId "cancelled",
        emitted := [WsEvent.generationFailed jobId "Job cancelled by user"] }

/-- Outcome of the validation + sanitization prefix of the enhanced
service's `startGeneration` (lines 36–78): on validation failure the job is
never stored and a `generation_failed` event is emitted; otherwise the
sanitized request is stored and is the request handed to agent / task
creation. -/
structure EnhancedSubmitOutcome where
  storedJob : Option EnhancedJob
  emitted : List WsEvent
  deriving DecidableEq

/-- The validation and sanitization prefix of the enhanced service's
`startGeneration` (`enhanced-code-generation.ts`, lines 36–78). -/
def enhancedStartGeneration (request : GenerationRequest) : EnhancedSubmitOutcome :=
  let errors := validateGenerationRequest (some request.requirements)
    (some request.framework) (some request.language)
  if errors ≠ [] then
    { storedJob := none,
      emitted := [WsEvent.generationFailed request.jobId
        ("Validation failed: " ++ String.intercalate ", " errors)] }
  else
    { storedJob := some
        { request :=
            { request with
              requirements := sanitizeInput request.requirements,
              framework := sanitizeInput request.framework,
              language := sanitizeInput request.language },
          status := EnhancedStatus.running,
          endTime := none },
      emitted := [WsEvent.generationStarted request.jobId] }

/-! ### Submission route (`src/server/routes.ts`) -/

/-- Response of `POST /api/generate`. -/
inductive RouteResponse
  | ok (jobId : String) (message : String) (estimatedTime : String)
  | badRequest (error : String)
  deriving DecidableEq

/-- Outcome of `POST /api/generate`: the HTTP response together with the
generation run it spawned, if any. -/
structure RouteOutcome where
  response : RouteResponse
  job : Option GenOutcome
  deriving DecidableEq

/-- The `POST /api/generate` handler (`routes.ts`, lines 16–50): rejects a
submission with any falsy (empty) field before any job id is minted or any
task is created; otherwise mints `job_<nanoid>` (the nanoid modelled by the
`nonce` argument), trims the requirements, and fires `startGeneration`. -/
def apiGenerate (exec : Agent → String → String → Except String String)
    (now : Nat) (nonce : String)
    (requirements framework language : String) : RouteOutcome :=
  if requirements = "" ∨ framework = "" ∨ language = "" then
    { response := RouteResponse.badRequest
        "Missing required fields: requirements, framework, language",
      job := none }
  else
    { response := RouteResponse.ok ("job_" ++ nonce) "Code generation started" "2-3 minutes",
      job := some (startGeneration exec now
        { jobId := "job_" ++ nonce, requirements := jsTrim requirements,
          framework := framework, language := language }) }

/-! ### Specification-side observables -/

/-- The roles of the `agent_started` events of a trace, in emission
order. -/
def startedRoles (events : List WsEvent) : List String :=
  events.filterMap (fun e => match e with
    | WsEvent.agentStarted _ role _ => some role
    | _ => none)

/-- Number of tasks of a snapshot whose status is `in_progress`. -/
def countInProgress (tasks : List Task) : Nat :=
  (tasks.filter (fun t => t.status = TaskStatus.in_progress)).length

/-- The accumulated context reconstructed from a task list: starting from
`ctx`, append `"\n\n<role> Output:\n<output>"` for every task carrying an
output, in list order. -/
def ctxfold (ctx : String) (tasks : List Task) : String :=
  tasks.foldl (fun acc t => match t.output with
    | some o => acc ++ fmtOutput t.agent.role o
    | none => acc) ctx

/-- Whether a character list contains three consecutive newlines. -/
def hasTriple : List Char → Bool
  | a :: b :: c :: rest =>
    (a = '\n' && b = '\n' && c = '\n') || hasTriple (b :: c :: rest)
  | _ => false

/-! ## Theorems -/

/-- C8: when no model credential is configured — the only mode
`AIAgent.execute` has, its Cerebras call being commented out — execution
never rejects, and the canned response depends only on the agent's role:
two runs on identical (or even different) prompts and contexts, with
different simulated delays, return the same role-specific template.  The
fallback is a total function, not an error path. -/
theorem execute_fallback_deterministic (a b : Agent) (d₁ d₂ : Nat)
    (p₁ p₂ : String) (c₁ c₂ : Option String) (hrole : a.role = b.role) :
    a.execute d₁ p₁ c₁ = b.execute d₂ p₂ c₂ ∧
      ∃ out, a.execute d₁ p₁ c₁ = Except.ok out := by
  refine ⟨?_, ⟨generateRoleSpecificResponse a p₁ c₁, rfl⟩⟩
  simp only [Agent.execute, generateRoleSpecificResponse, hrole]

/-- Witness for `execute_fallback_deterministic` at the Product Manager
agent and a variant sharing only its role. -/
theorem execute_fallback_deterministic_witness :
    (({ id := "product_manager", role := "Product Manager",
        goal := "Analyze requirements and create comprehensive project specifications",
        backstory := "b1" } : Agent).execute 1 "prompt one" none =
      ({ id := "other", role := "Product Manager", goal := "g2",
         backstory := "b2" } : Agent).execute 999 "prompt two" (some "ctx")) ∧
    ∃ out, ({ id := "product_manager", role := "Product Manager",
              goal := "Analyze requirements and create comprehensive project specifications",
              backstory := "b1" } : Agent).execute 1 "prompt one" none = Except.ok out :=
  execute_fallback_deterministic _ _ 1 999 "prompt one" "prompt two" none (some "ctx") rfl

/-- C6 counterexample: a job whose status is `cancelled` is terminal, yet
`cancelJob` does not answer "already finished" on it: it re-cancels the
job, overwrites its `endTime`, and emits a fresh `generation_failed`
event.  The claim's "every job in a terminal state (completed, failed, or
cancelled)" is therefore false for `cancelled`. -/
theorem cancelJob_cancelled_not_idempotent :
    (cancelJob 99 "job_1"
        (some { request := { jobId := "job_1", requirements := "r",
                             framework := "f", language := "l" },
                status := EnhancedStatus.cancelled, endTime := some 7 })).response ≠
      ServiceResult.err "Job already finished" ∧
    (cancelJob 99 "job_1"
        (some { request := { jobId := "job_1", requirements := "r",
                             framework := "f", language := "l" },
                status := EnhancedStatus.cancelled, endTime := some 7 })).emitted =
      [WsEvent.generationFailed "job_1" "Job cancelled by user"] ∧
    (cancelJob 99 "job_1"
        (some { request := { jobId := "job_1", requirements := "r",
                             framework := "f", language := "l" },
                status := EnhancedStatus.cancelled, endTime := some 7 })).job ≠
      some { request := { jobId := "job_1", requirements := "r",
                          framework := "f", language := "l" },
             status := EnhancedStatus.cancelled, endTime := some 7 } := by
  refine ⟨by decide, by decide, by decide⟩

/-- C6 amended: for a job whose status is `completed` or `failed`,
`cancelJob` returns the "Job already finished" error, leaves the stored job
unchanged, and emits no event.  (An already-`cancelled` job, by contrast,
is re-cancelled — see the counterexample.) -/
theorem cancelJob_idempotent_on_completed_failed (now : Nat) (jobId : String)
    (job : EnhancedJob)
    (h : job.status = EnhancedStatus.completed ∨ job.status = EnhancedStatus.failed) :
    cancelJob now jobId (some job) =
      { job := some job, response := ServiceResult.err "Job already finished",
        emitted := [] } := by
  simp only [cancelJob]
  rw [if_pos h]

/-- Witness for `cancelJob_idempotent_on_completed_failed` at a concrete
completed job. -/
theorem cancelJob_idempotent_on_completed_failed_witness :
    (({ request := { jobId := "job_2", requirements := "r", framework := "f",
                     language := "l" },
        status := EnhancedStatus.completed, endTime := some 5 } : EnhancedJob).status =
          EnhancedStatus.completed ∨
      ({ request := { jobId := "job_2", requirements := "r", framework := "f",
                      language := "l" },
         status := EnhancedStatus.completed, endTime := some 5 } : EnhancedJob).status =
          EnhancedStatus.failed) ∧
    cancelJob 42 "job_2"
        (some { request := { jobId := "job_2", requirements := "r", framework := "f",
                             language := "l" },
                status := EnhancedStatus.completed, endTime := some 5 }) =
      { job := some { request := { jobId := "job_2", requirements := "r",
                                   framework := "f", language := "l" },
                      status := EnhancedStatus.completed, endTime := some 5 },
        response := ServiceResult.err "Job already finished", emitted := [] } :=
  ⟨Or.inl rfl,
    cancelJob_idempotent_on_completed_failed 42 "job_2" _ (Or.inl rfl)⟩

/-- C7 counterexample: `failGeneration` schedules no eviction, so a failed
job is still retrievable 10,000,000 ms (far beyond the 5-minute window)
after failing at time 0 — the claim's "none is kept past the window" is
false for failed jobs. -/
theorem failed_job_never_evicted :
    getJobStatusAt 10000000
        (failGeneration { job := { jobId := "job_3", status := JobStatusKind.in_progress,
                                   tasks := [] },
                          evictAt := none }) =
      some { jobId := "job_3", status := JobStatusKind.failed, tasks := [] } := by
  decide

/-- C7 amended: for a job with no eviction yet scheduled, completion keeps
it retrievable strictly inside the 5-minute window and makes it not-found
exactly from the moment the window elapses; a failed job, however, is
never evicted (`failGeneration` schedules no cleanup) and stays
retrievable at every later time. -/
theorem retention_window_completed_only (e : RegistryEntry) (now t : Nat)
    (h : e.evictAt = none) :
    (t < now + 300000 →
      getJobStatusAt t (completeGeneration now e) =
        some { e.job with status := JobStatusKind.completed }) ∧
    (now + 300000 ≤ t →
      getJobStatusAt t (completeGeneration now e) = none) ∧
    getJobStatusAt t (failGeneration e) =
      some { e.job with status := JobStatusKind.failed } := by
  refine ⟨fun hlt => ?_, fun hge => ?_, ?_⟩
  · simp only [getJobStatusAt, completeGeneration]
    rw [if_neg (by omega)]
  · simp only [getJobStatusAt, completeGeneration]
    rw [if_pos hge]
  · simp only [getJobStatusAt, failGeneration, h]

/-- Witness for `retention_window_completed_only` at a concrete entry and
a time inside the window. -/
theorem retention_window_completed_only_witness :
    (({ job := { jobId := "job_4", status := JobStatusKind.in_progress, tasks := [] },
        evictAt := none } : RegistryEntry).evictAt = none) ∧
    ((7 < 100 + 300000 →
      getJobStatusAt 7 (completeGeneration 100
          { job := { jobId := "job_4", status := JobStatusKind.in_progress, tasks := [] },
            evictAt := none }) =
        some { jobId := "job_4", status := JobStatusKind.completed, tasks := [] }) ∧
     (100 + 300000 ≤ 7 →
      getJobStatusAt 7 (completeGeneration 100
          { job := { jobId := "job_4", status := JobStatusKind.in_progress, tasks := [] },
            evictAt := none }) = none) ∧
     getJobStatusAt 7 (failGeneration
          { job := { jobId := "job_4", status := JobStatusKind.in_progress, tasks := [] },
            evictAt := none }) =
       some { jobId := "job_4", status := JobStatusKind.failed, tasks := [] }) :=
  ⟨rfl, retention_window_completed_only _ 100 7 rfl⟩

/-- C4: a submission with empty requirements, framework and language is
rejected with all three field violations listed (not only the first), the
enhanced service stores no job for it, and the HTTP route rejects it
before any job id is minted or any task created. -/
theorem empty_submission_all_errors_no_job (jobId nonce : String)
    (exec : Agent → String → String → Except String String) (now : Nat) :
    validateGenerationRequest (some "") (some "") (some "") =
      ["Requirements are required and cannot be empty",
       "Framework is required and cannot be empty",
       "Language is required and cannot be empty"] ∧
    (enhancedStartGeneration
        { jobId := jobId, requirements := "", framework := "", language := "" }).storedJob =
      none ∧
    apiGenerate exec now nonce "" "" "" =
      { response := RouteResponse.badRequest
          "Missing required fields: requirements, framework, language",
        job := none } := by
  refine ⟨by decide, ?_, ?_⟩
  · simp only [enhancedStartGeneration]
    rw [if_pos (by decide)]
  · simp only [apiGenerate]
    rw [if_pos (Or.inl trivial)]

/-- Dropping the leading run of `p`-characters of a list lands either on
the empty list or on a character that violates `p`. -/
theorem drop_countLeading (p : Char → Bool) :
    ∀ l : List Char, l.drop (countLeading p l) = [] ∨
      ∃ c t, l.drop (countLeading p l) = c :: t ∧ p c = false
  | [] => Or.inl rfl
  | c :: cs => by
    by_cases h : p c = true
    · simpa only [countLeading, h, if_true, List.drop_succ_cons] using
        drop_countLeading p cs
    · refine Or.inr ⟨c, cs, ?_, ?_⟩
      · simp [countLeading, h]
      · revert h
        cases p c <;> simp

/-- Every character of `collapseNewlineRuns l` is a newline or a character
of `l`. -/
theorem mem_collapseNewlineRuns (l : List Char) :
    ∀ c ∈ collapseNewlineRuns l, c = '\n' ∨ c ∈ l := by
  induction l using collapseNewlineRuns.induct with
  | case1 => simp [collapseNewlineRuns]
  | case2 cs ih =>
    intro c hc
    rw [collapseNewlineRuns] at hc
    rw [if_pos rfl] at hc
    rcases List.mem_append.1 hc with hL | hR
    · left
      split at hL
      · simp only [List.mem_cons, List.not_mem_nil, or_false] at hL
        rcases hL with h | h <;> exact h
      · exact (List.eq_of_mem_replicate hL)
    · rcases ih c hR with h | h
      · exact Or.inl h
      · exact Or.inr (List.mem_cons_of_mem _ (List.drop_subset _ _ h))
  | case3 c₀ cs h0 ih =>
    intro c hc
    rw [collapseNewlineRuns] at hc
    rw [if_neg h0] at hc
    rcases List.mem_cons.1 hc with h | h
    · exact Or.inr (h ▸ List.mem_cons_self _ _)
    · rcases ih c h with h | h
      · exact Or.inl h
      · exact Or.inr (List.mem_cons_of_mem _ h)

/-- Prepending a non-newline character cannot create a triple newline. -/
theorem hasTriple_cons_of_ne (c : Char) (h : c ≠ '\n') (l : List Char)
    (hl : hasTriple l = false) : hasTriple (c :: l) = false := by
  match l with
  | [] => rfl
  | [b] => rfl
  | b :: d :: u => simp [hasTriple, hl, h]

/-- Prepending one newline to a triple-free list that does not start with a
newline keeps it triple-free. -/
theorem hasTriple_nl_cons (l : List Char) (hl : hasTriple l = false)
    (hhead : ∀ b t, l = b :: t → b ≠ '\n') : hasTriple ('\n' :: l) = false := by
  match l with
  | [] => rfl
  | [b] => rfl
  | b :: d :: u =>
    have hb : b ≠ '\n' := hhead b (d :: u) rfl
    simp [hasTriple, hl, hb]

/-- Prepending two newlines to a triple-free list that does not start with
a newline keeps it triple-free. -/
theorem hasTriple_nl_nl_cons (l : List Char) (hl : hasTriple l = false)
    (hhead : ∀ b t, l = b :: t → b ≠ '\n') :
    hasTriple ('\n' :: '\n' :: l) = false := by
  match l with
  | [] => rfl
  | b :: u =>
    have hb : b ≠ '\n' := hhead b u rfl
    have h2 : hasTriple ('\n' :: b :: u) = false := hasTriple_nl_cons (b :: u) hl hhead
    show (decide ('\n' = '\n') && decide ('\n' = '\n') && decide (b = '\n') ||
      hasTriple ('\n' :: b :: u)) = false
    rw [h2, Bool.or_false]
    simp [hb]

/-- The collapsed form of the tail after the leading newline run does not
start with a newline. -/
theorem collapse_drop_head (cs : List Char) :
    ∀ b t, collapseNewlineRuns
        (cs.drop (countLeading (fun d => d = '\n') cs)) = b :: t → b ≠ '\n' := by
  rcases drop_countLeading (fun d => d = '\n') cs with h | ⟨c, u, heq, hpc⟩
  · rw [h]
    intro b t hbt
    exact absurd hbt (by simp [collapseNewlineRuns])
  · rw [heq]
    intro b t hbt
    have hc : c ≠ '\n' := by simpa using hpc
    rw [collapseNewlineRuns, if_neg hc] at hbt
    injection hbt with h1 _
    exact h1 ▸ hc

/-- `collapseNewlineRuns` produces a list with no three consecutive
newlines. -/
theorem collapseNewlineRuns_noTriple (l : List Char) :
    hasTriple (collapseNewlineRuns l) = false := by
  induction l using collapseNewlineRuns.induct with
  | case1 =>
    rw [collapseNewlineRuns]
    decide
  | case2 cs ih =>
    have hd := collapse_drop_head cs
    rw [collapseNewlineRuns, if_pos rfl]
    generalize hn : countLeading (fun d => d = '\n') cs = n at ih hd ⊢
    by_cases h3 : n + 1 ≥ 3
    · rw [if_pos h3]
      exact hasTriple_nl_nl_cons _ ih hd
    · rw [if_neg h3]
      rcases n with _ | _ | m
      · exact hasTriple_nl_cons _ ih hd
      · exact hasTriple_nl_nl_cons _ ih hd
      · exact absurd (by omega) h3
  | case3 c cs h0 ih =>
    rw [collapseNewlineRuns, if_neg h0]
    exact hasTriple_cons_of_ne c h0 _ ih

/-- A prefix of a triple-free list is triple-free. -/
theorem hasTriple_take :
    ∀ (l : List Char) (m : Nat), hasTriple l = false → hasTriple (l.take m) = false
  | [], m, _ => by
    rw [List.take_nil]
    decide
  | _ :: _, 0, _ => rfl
  | [_], m + 1, _ => by
    rw [List.take_succ_cons, List.take_nil]
    rfl
  | [_, _], m + 1, _ => by
    cases m with
    | zero => rfl
    | succ m' =>
      rw [List.take_succ_cons, List.take_succ_cons, List.take_nil]
      rfl
  | a :: b :: c :: rest, m + 1, h => by
    have hv : (decide (a = '\n') && decide (b = '\n') && decide (c = '\n')) = false ∧
        hasTriple (b :: c :: rest) = false := by
      simpa [hasTriple, Bool.or_eq_false_iff] using h
    cases m with
    | zero => rfl
    | succ m' =>
      cases m' with
      | zero => rfl
      | succ m'' =>
        show (decide (a = '\n') && decide (b = '\n') && decide (c = '\n') ||
          hasTriple (b :: c :: List.take m'' rest)) = false
        rw [hv.1, Bool.false_or]
        exact hasTriple_take (b :: c :: rest) (m'' + 2) hv.2

/-- `sanitizeInput` truncates to at most 10,000 characters. -/
theorem sanitizeInput_length (s : String) : (sanitizeInput s).data.length ≤ 10000 := by
  show ((collapseNewlineRuns _).take 10000).length ≤ 10000
  rw [List.length_take]
  exact Nat.min_le_left _ _

/-- `sanitizeInput` removes every angle bracket. -/
theorem sanitizeInput_no_angles (s : String) :
    ∀ c ∈ (sanitizeInput s).data, c ≠ '<' ∧ c ≠ '>' := by
  intro c hc
  have hc2 : c ∈ collapseNewlineRuns
      ((jsTrimList s.data).filter (fun c => !(c = '<' || c = '>'))) :=
    List.take_subset _ _ hc
  rcases mem_collapseNewlineRuns _ c hc2 with h | h
  · subst h
    exact ⟨by decide, by decide⟩
  · have hp := List.of_mem_filter h
    simpa using hp

/-- `sanitizeInput` leaves no run of three consecutive newlines. -/
theorem sanitizeInput_no_triple (s : String) :
    hasTriple (sanitizeInput s).data = false :=
  hasTriple_take _ _ (collapseNewlineRuns_noTriple _)

/-- C10: a submission accepted by the enhanced service is driven by the
sanitized form of its fields: the stored job's request is exactly the
field-wise `sanitizeInput` image of the submitted request, and each
sanitized field is at most 10,000 characters, contains no `<` or `>`, and
contains no run of three or more consecutive newlines. -/
theorem enhanced_drives_sanitized (request : GenerationRequest)
    (h : validateGenerationRequest (some request.requirements)
        (some request.framework) (some request.language) = []) :
    (enhancedStartGeneration request).storedJob = some
      { request :=
          { request with
            requirements := sanitizeInput request.requirements,
            framework := sanitizeInput request.framework,
            language := sanitizeInput request.language },
        status := EnhancedStatus.running, endTime := none } ∧
    ∀ f ∈ [request.requirements, request.framework, request.language],
      (sanitizeInput f).data.length ≤ 10000 ∧
      (∀ c ∈ (sanitizeInput f).data, c ≠ '<' ∧ c ≠ '>') ∧
      hasTriple (sanitizeInput f).data = false := by
  constructor
  · simp only [enhancedStartGeneration, h]
    rw [if_neg (by simp)]
  · intro f _
    exact ⟨sanitizeInput_length f, sanitizeInput_no_angles f, sanitizeInput_no_triple f⟩

/-- Witness for `enhanced_drives_sanitized` at a concrete valid request
whose fields exercise trimming, angle-bracket stripping and newline
collapsing. -/
theorem enhanced_drives_sanitized_witness :
    validateGenerationRequest (some "Build a <cool> app\n\n\n\nplease")
        (some "react") (some "python") = [] ∧
    ((enhancedStartGeneration
        { jobId := "job_w", requirements := "Build a <cool> app\n\n\n\nplease",
          framework := "react", language := "python" }).storedJob = some
      { request :=
          { jobId := "job_w",
            requirements := sanitizeInput "Build a <cool> app\n\n\n\nplease",
            framework := sanitizeInput "react",
            language := sanitizeInput "python" },
        status := EnhancedStatus.running, endTime := none } ∧
    ∀ f ∈ ["Build a <cool> app\n\n\n\nplease", "react", "python"],
      (sanitizeInput f).data.length ≤ 10000 ∧
      (∀ c ∈ (sanitizeInput f).data, c ≠ '<' ∧ c ≠ '>') ∧
      hasTriple (sanitizeInput f).data = false) :=
  ⟨by decide,
    enhanced_drives_sanitized
      { jobId := "job_w", requirements := "Build a <cool> app\n\n\n\nplease",
        framework := "react", language := "python" } (by decide)⟩

/-- The roles of the tasks a request creates, in fixed order. -/
theorem createTasks_roles (request : GenerationRequest) :
    (createTasks request).map (fun t => t.agent.role) =
      ["Product Manager", "Solution Architect", "Senior Developer", "QA Engineer"] := rfl

/-- Every freshly created task is pending. -/
theorem createTasks_pending (request : GenerationRequest) :
    ∀ t ∈ createTasks request, t.status = TaskStatus.pending := by
  intro t ht
  simp only [createTasks, List.mem_map] at ht
  obtain ⟨ia, _, rfl⟩ := ht
  rfl

/-- `find` inside the loop recovers exactly the agent stored on each
created task (agent ids are pairwise distinct). -/
theorem createTasks_find (request : GenerationRequest) :
    ∀ t ∈ createTasks request,
      createAgents.find? (fun a => a.id = t.agent.id) = some t.agent := by
  intro t ht
  simp only [createTasks, List.mem_map] at ht
  obtain ⟨ia, hia, rfl⟩ := ht
  fin_cases hia <;> rfl

/-- `executeLoop` never changes which agent each position's task
carries. -/
theorem executeLoop_agents (exec : Agent → String → String → Except String String)
    (agents : List Agent) (jobId : String) :
    ∀ (rest done : List Task) (ctx : String),
      (executeLoop exec agents jobId done rest ctx).tasks.map (fun t => t.agent) =
        rest.map (fun t => t.agent) := by
  intro rest
  induction rest with
  | nil =>
    intro done ctx
    rw [executeLoop]
  | cons t ts ih =>
    intro done ctx
    rw [executeLoop]
    rcases hfind : agents.find? (fun a => a.id = t.agent.id) with _ | agent <;>
      simp only [hfind]
    · simp only [List.map_cons]
      rw [ih]
    · rcases hexec : exec agent t.description ctx with e | output <;>
        simp only [hexec]
      · simp only [List.map_cons]
      · simp only [List.map_cons]
        rw [ih]

/-- The synthetic progress ticks contain no `agent_started` event. -/
theorem startedRoles_progressTicks (j r : String) :
    startedRoles (progressTicks j r) = [] := rfl

/-- `startedRoles` distributes over append. -/
theorem startedRoles_append (a b : List WsEvent) :
    startedRoles (a ++ b) = startedRoles a ++ startedRoles b :=
  List.filterMap_append a b _

/-- An `agent_started` event contributes its role. -/
theorem startedRoles_cons_started (j r task : String) (l : List WsEvent) :
    startedRoles (WsEvent.agentStarted j r task :: l) = r :: startedRoles l := rfl

/-- An `agent_completed` event contributes nothing. -/
theorem startedRoles_cons_completed (j r o : String) (l : List WsEvent) :
    startedRoles (WsEvent.agentCompleted j r o :: l) = startedRoles l := rfl

/-- When the loop runs to completion without error, every processed task is
completed and carries an output. -/
theorem executeLoop_ok_completed (exec : Agent → String → String → Except String String)
    (agents : List Agent) (jobId : String) :
    ∀ (rest done : List Task) (ctx : String),
      (∀ u ∈ rest, agents.find? (fun a => a.id = u.agent.id) = some u.agent) →
      (executeLoop exec agents jobId done rest ctx).error = none →
      ∀ u ∈ (executeLoop exec agents jobId done rest ctx).tasks,
        u.status = TaskStatus.completed ∧ u.output.isSome := by
  intro rest
  induction rest with
  | nil =>
    intro done ctx _ _ u hu
    rw [executeLoop] at hu
    simp at hu
  | cons t ts ih =>
    intro done ctx hf herr u hu
    have hft := hf t (List.mem_cons_self _ _)
    rw [executeLoop] at herr hu
    simp only [hft] at herr hu
    rcases hexec : exec t.agent t.description ctx with e | output <;>
      simp only [hexec] at herr hu
    · exact absurd herr (by simp)
    · rcases List.mem_cons.1 hu with rfl | hmem
      · exact ⟨rfl, rfl⟩
      · exact ih _ _ (fun v hv => hf v (List.mem_cons_of_mem _ hv)) herr u hmem

/-- When the loop runs to completion without error, the `agent_started`
events carry exactly the roles of the processed tasks, in order. -/
theorem executeLoop_ok_startedRoles (exec : Agent → String → String → Except String String)
    (agents : List Agent) (jobId : String) :
    ∀ (rest done : List Task) (ctx : String),
      (∀ u ∈ rest, agents.find? (fun a => a.id = u.agent.id) = some u.agent) →
      (executeLoop exec agents jobId done rest ctx).error = none →
      startedRoles (executeLoop exec agents jobId done rest ctx).events =
        rest.map (fun u => u.agent.role) := by
  intro rest
  induction rest with
  | nil =>
    intro done ctx _ _
    rw [executeLoop]
    rfl
  | cons t ts ih =>
    intro done ctx hf herr
    have hft := hf t (List.mem_cons_self _ _)
    rw [executeLoop] at herr ⊢
    simp only [hft] at herr ⊢
    rcases hexec : exec t.agent t.description ctx with e | output <;>
      simp only [hexec] at herr ⊢
    · exact absurd herr (by simp)
    · rw [startedRoles_cons_started, startedRoles_cons_completed, startedRoles_append,
        startedRoles_progressTicks, List.nil_append, List.map_cons,
        ih _ _ (fun v hv => hf v (List.mem_cons_of_mem _ hv)) herr]

/-- When the loop aborts with an error, the processed task list splits into
completed stages, the failed stage, and untouched pending stages, with the
`agent_started` events covering exactly the stages up to and including the
failed one. -/
theorem executeLoop_error_decomp (exec : Agent → String → String → Except String String)
    (agents : List Agent) (jobId : String) :
    ∀ (rest done : List Task) (ctx : String),
      (∀ u ∈ rest, agents.find? (fun a => a.id = u.agent.id) = some u.agent) →
      (∀ u ∈ rest, u.status = TaskStatus.pending) →
      (executeLoop exec agents jobId done rest ctx).error.isSome →
      ∃ pre fl post,
        (executeLoop exec agents jobId done rest ctx).tasks = pre ++ fl :: post ∧
        (∀ u ∈ pre, u.status = TaskStatus.completed) ∧
        fl.status = TaskStatus.failed ∧
        (∀ u ∈ post, u.status = TaskStatus.pending) ∧
        startedRoles (executeLoop exec agents jobId done rest ctx).events =
          (pre ++ [fl]).map (fun u => u.agent.role) := by
  intro rest
  induction rest with
  | nil =>
    intro done ctx _ _ herr
    rw [executeLoop] at herr
    simp at herr
  | cons t ts ih =>
    intro done ctx hf hpend herr
    have hft := hf t (List.mem_cons_self _ _)
    rw [executeLoop] at herr ⊢
    simp only [hft] at herr ⊢
    rcases hexec : exec t.agent t.description ctx with e | output <;>
      simp only [hexec] at herr ⊢
    · refine ⟨[], _, ts, rfl, by simp, rfl, fun v hv => hpend v (List.mem_cons_of_mem _ hv), ?_⟩
      rfl
    · obtain ⟨pre, fl, post, htasks, hpre, hfl, hpost, hroles⟩ :=
        ih _ _ (fun v hv => hf v (List.mem_cons_of_mem _ hv))
          (fun v hv => hpend v (List.mem_cons_of_mem _ hv)) herr
      refine ⟨{ t with status := TaskStatus.completed, output := some output } :: pre,
        fl, post, ?_, ?_, hfl, hpost, ?_⟩
      · rw [List.cons_append, htasks]
      · intro v hv
        rcases List.mem_cons.1 hv with rfl | hv2
        · rfl
        · exact hpre v hv2
      · rw [List.cons_append, List.map_cons, startedRoles_cons_started,
          startedRoles_cons_completed, startedRoles_append,
          startedRoles_progressTicks, List.nil_append, hroles]

/-- The accumulated context handed to the `k`-th agent invocation is
exactly the `ctxfold` reconstruction over the first `k` processed tasks. -/
theorem executeLoop_calls_context (exec : Agent → String → String → Except String String)
    (agents : List Agent) (jobId : String) :
    ∀ (rest done : List Task) (ctx : String),
      (∀ u ∈ rest, agents.find? (fun a => a.id = u.agent.id) = some u.agent) →
      ∀ (k : Nat) (call : AgentCall),
        (executeLoop exec agents jobId done rest ctx).calls.get? k = some call →
        call.callContext =
          ctxfold ctx ((executeLoop exec agents jobId done rest ctx).tasks.take k) := by
  intro rest
  induction rest with
  | nil =>
    intro done ctx _ k call hcall
    rw [executeLoop] at hcall
    simp at hcall
  | cons t ts ih =>
    intro done ctx hf k call hcall
    have hft := hf t (List.mem_cons_self _ _)
    rw [executeLoop] at hcall ⊢
    simp only [hft] at hcall ⊢
    rcases hexec : exec t.agent t.description ctx with e | output <;>
      simp only [hexec] at hcall ⊢
    · cases k with
      | zero =>
        simp only [List.get?_cons_zero, Option.some.injEq] at hcall
        subst hcall
        rfl
      | succ k' =>
        simp at hcall
    · cases k with
      | zero =>
        simp only [List.get?_cons_zero, Option.some.injEq] at hcall
        subst hcall
        rfl
      | succ k' =>
        simp only [List.get?_cons_succ] at hcall
        have := ih _ _ (fun v hv => hf v (List.mem_cons_of_mem _ hv)) k' call hcall
        rw [List.take_succ_cons]
        simp only [ctxfold, List.foldl_cons]
        exact this

/-- `countInProgress` distributes over append. -/
theorem countInProgress_append (a b : List Task) :
    countInProgress (a ++ b) = countInProgress a + countInProgress b := by
  simp [countInProgress, List.filter_append]

/-- A list without in-progress tasks contributes zero. -/
theorem countInProgress_zero (l : List Task)
    (h : ∀ u ∈ l, u.status ≠ TaskStatus.in_progress) : countInProgress l = 0 := by
  simp only [countInProgress, List.length_eq_zero, List.filter_eq_nil]
  intro u hu
  simpa using h u hu

/-- Every intermediate task snapshot of the loop has at most one stage in
progress. -/
theorem executeLoop_snapshots (exec : Agent → String → String → Except String String)
    (agents : List Agent) (jobId : String) :
    ∀ (rest done : List Task) (ctx : String),
      (∀ u ∈ done, u.status ≠ TaskStatus.in_progress) →
      (∀ u ∈ rest, u.status = TaskStatus.pending) →
      ∀ s ∈ (executeLoop exec agents jobId done rest ctx).snapshots,
        countInProgress s ≤ 1 := by
  intro rest
  induction rest with
  | nil =>
    intro done ctx _ _ s hs
    rw [executeLoop] at hs
    simp at hs
  | cons t ts ih =>
    intro done ctx hdone hpend s hs
    have hpts : ∀ u ∈ ts, u.status = TaskStatus.pending :=
      fun v hv => hpend v (List.mem_cons_of_mem _ hv)
    have hts0 : countInProgress ts = 0 :=
      countInProgress_zero ts (fun v hv => by rw [hpts v hv]; decide)
    have hdone0 : countInProgress done = 0 := countInProgress_zero done hdone
    rw [executeLoop] at hs
    rcases hfind : agents.find? (fun a => a.id = t.agent.id) with _ | agent <;>
      simp only [hfind] at hs
    · refine ih _ _ ?_ hpts s hs
      intro v hv
      rcases List.mem_append.1 hv with hv2 | hv2
      · exact hdone v hv2
      · rw [List.mem_singleton.1 hv2, hpend t (List.mem_cons_self _ _)]
        decide
    · rcases hexec : exec agent t.description ctx with e | output <;>
        simp only [hexec] at hs
      · rcases List.mem_cons.1 hs with rfl | hs2
        · rw [countInProgress_append, hdone0]
          have hcnt : countInProgress ({ t with status := TaskStatus.in_progress } :: ts) =
              1 + countInProgress ts := by
            simp [countInProgress, List.filter_cons] <;> omega
          omega
        · rcases List.mem_cons.1 hs2 with rfl | hs3
          · rw [countInProgress_append, hdone0]
            have hcnt : countInProgress ({ t with status := TaskStatus.failed } :: ts) =
                countInProgress ts := by
              simp [countInProgress, List.filter_cons]
            omega
          · exact absurd hs3 (List.not_mem_nil _)
      · rcases List.mem_cons.1 hs with rfl | hs2
        · rw [countInProgress_append, hdone0]
          have hcnt : countInProgress ({ t with status := TaskStatus.in_progress } :: ts) =
              1 + countInProgress ts := by
            simp [countInProgress, List.filter_cons] <;> omega
          omega
        · rcases List.mem_cons.1 hs2 with rfl | hs3
          · rw [countInProgress_append, hdone0]
            have hcnt : countInProgress
                ({ t with status := TaskStatus.completed, output := some output } :: ts) =
                countInProgress ts := by
              simp [countInProgress, List.filter_cons]
            omega
          · refine ih _ _ ?_ hpts s hs3
            intro v hv
            rcases List.mem_append.1 hv with hv2 | hv2
            · exact hdone v hv2
            · rw [List.mem_singleton.1 hv2]
              simp

/-- A `generation_started` event contributes no started role. -/
theorem startedRoles_cons_genStarted (j : String) (l : List WsEvent) :
    startedRoles (WsEvent.generationStarted j :: l) = startedRoles l := rfl

/-- A trailing `generation_completed` event contributes no started role. -/
theorem startedRoles_genCompleted (j : String) :
    startedRoles [WsEvent.generationCompleted j] = [] := rfl

/-- A trailing `generation_failed` event contributes no started role. -/
theorem startedRoles_genFailed (j e : String) :
    startedRoles [WsEvent.generationFailed j e] = [] := rfl

/-- Taking one past a list prefix selects the prefix and the next
element. -/
theorem take_append_cons {α : Type} (pre : List α) (x : α) (post : List α) :
    (pre ++ x :: post).take (pre.length + 1) = pre ++ [x] := by
  induction pre with
  | nil => rfl
  | cons a l ih =>
    simp only [List.cons_append, List.length_cons]
    rw [List.take_succ_cons, ih]

/-- `startGeneration` forwards the loop's snapshots unchanged. -/
theorem startGeneration_snapshots (exec : Agent → String → String → Except String String)
    (now : Nat) (request : GenerationRequest) :
    (startGeneration exec now request).snapshots =
      (executeLoop exec createAgents request.jobId [] (createTasks request) "").snapshots := by
  simp only [startGeneration]
  rcases herr : (executeLoop exec createAgents request.jobId [] (createTasks request) "").error
    with _ | e <;> simp only [herr]

/-- `startGeneration` forwards the loop's recorded calls unchanged. -/
theorem startGeneration_calls (exec : Agent → String → String → Except String String)
    (now : Nat) (request : GenerationRequest) :
    (startGeneration exec now request).calls =
      (executeLoop exec createAgents request.jobId [] (createTasks request) "").calls := by
  simp only [startGeneration]
  rcases herr : (executeLoop exec createAgents request.jobId [] (createTasks request) "").error
    with _ | e <;> simp only [herr]

/-- `startGeneration` stores the loop's final task list on the job. -/
theorem startGeneration_tasks (exec : Agent → String → String → Except String String)
    (now : Nat) (request : GenerationRequest) :
    (startGeneration exec now request).job.tasks =
      (executeLoop exec createAgents request.jobId [] (createTasks request) "").tasks := by
  simp only [startGeneration]
  rcases herr : (executeLoop exec createAgents request.jobId [] (createTasks request) "").error
    with _ | e <;> simp only [herr]

/-- `startGeneration` forwards the loop's error unchanged. -/
theorem startGeneration_error (exec : Agent → String → String → Except String String)
    (now : Nat) (request : GenerationRequest) :
    (startGeneration exec now request).error =
      (executeLoop exec createAgents request.jobId [] (createTasks request) "").error := by
  simp only [startGeneration]
  rcases herr : (executeLoop exec createAgents request.jobId [] (createTasks request) "").error
    with _ | e <;> simp only [herr]

/-- The started roles of a whole run are those of its loop: the wrapping
`generation_started` / `generation_completed` / `generation_failed` events
start no stage. -/
theorem startGeneration_startedRoles (exec : Agent → String → String → Except String String)
    (now : Nat) (request : GenerationRequest) :
    startedRoles (startGeneration exec now request).events =
      startedRoles
        (executeLoop exec createAgents request.jobId [] (createTasks request) "").events := by
  simp only [startGeneration]
  rcases herr : (executeLoop exec createAgents request.jobId [] (createTasks request) "").error
    with _ | e <;> simp only [herr]
  · rw [startedRoles_cons_genStarted, startedRoles_append, startedRoles_genCompleted,
      List.append_nil]
  · rw [startedRoles_cons_genStarted, startedRoles_append, startedRoles_genFailed,
      List.append_nil]

/-- A run that ends without error completes the job. -/
theorem startGeneration_status_completed (exec : Agent → String → String → Except String String)
    (now : Nat) (request : GenerationRequest)
    (h : (executeLoop exec createAgents request.jobId [] (createTasks request) "").error = none) :
    (startGeneration exec now request).job.status = JobStatusKind.completed := by
  simp only [startGeneration, h]

/-- A run whose loop aborts fails the job. -/
theorem startGeneration_status_failed (exec : Agent → String → String → Except String String)
    (now : Nat) (request : GenerationRequest)
    (h : (executeLoop exec createAgents request.jobId [] (createTasks request) "").error.isSome) :
    (startGeneration exec now request).job.status = JobStatusKind.failed := by
  rcases herr : (executeLoop exec createAgents request.jobId [] (createTasks request) "").error
    with _ | e
  · rw [herr] at h
    simp at h
  · simp only [startGeneration, herr]

/-- C1: every submission creates exactly four stages in the fixed role
order Product Manager, Solution Architect, Senior Developer, QA Engineer;
execution is strictly sequential — every intermediate task snapshot of the
run has at most one stage `in_progress` — and the `agent_started` events of
the run's single job are emitted as a prefix of that fixed role order,
never reordered or interleaved, whatever the agents' success / failure
behaviour `exec` is. -/
theorem four_stages_strictly_sequential (request : GenerationRequest)
    (exec : Agent → String → String → Except String String) (now : Nat) :
    (createTasks request).map (fun t => t.agent.role) =
      ["Product Manager", "Solution Architect", "Senior Developer", "QA Engineer"] ∧
    (createTasks request).length = 4 ∧
    (∀ s ∈ (startGeneration exec now request).snapshots, countInProgress s ≤ 1) ∧
    ∃ n, startedRoles (startGeneration exec now request).events =
      (["Product Manager", "Solution Architect", "Senior Developer",
        "QA Engineer"] : List String).take n := by
  refine ⟨createTasks_roles request, rfl, ?_, ?_⟩
  · intro s hs
    rw [startGeneration_snapshots] at hs
    exact executeLoop_snapshots exec createAgents request.jobId (createTasks request) [] ""
      (by simp) (createTasks_pending request) s hs
  · rw [startGeneration_startedRoles, ← createTasks_roles request]
    rcases herr : (executeLoop exec createAgents request.jobId [] (createTasks request) "").error
      with _ | e
    · refine ⟨4, ?_⟩
      rw [executeLoop_ok_startedRoles exec createAgents request.jobId (createTasks request)
        [] "" (createTasks_find request) herr]
      rw [show ((createTasks request).map (fun t => t.agent.role)).take 4 =
        (createTasks request).map (fun t => t.agent.role) from rfl]
    · obtain ⟨pre, fl, post, htasks, _, _, _, hroles⟩ :=
        executeLoop_error_decomp exec createAgents request.jobId (createTasks request) [] ""
          (createTasks_find request) (createTasks_pending request) (by rw [herr]; rfl)
      refine ⟨pre.length + 1, ?_⟩
      rw [hroles]
      have hagents := executeLoop_agents exec createAgents request.jobId
        (createTasks request) [] ""
      have hmaps : (executeLoop exec createAgents request.jobId [] (createTasks request)
          "").tasks.map (fun t => t.agent.role) =
          (createTasks request).map (fun t => t.agent.role) := by
        have h1 : ∀ l : List Task,
            l.map (fun t => t.agent.role) = (l.map (fun t => t.agent)).map (fun a => a.role) :=
          fun l => by rw [List.map_map]; rfl
        rw [h1, h1, hagents]
      rw [← hmaps, htasks, ← List.map_take, take_append_cons]

/-- C2: the accumulated context handed to stage `k`'s agent is exactly the
concatenation, in completion order, of `"\n\n<role> Output:\n<output>"`
over the stages before `k` (so the first stage receives the empty
context, and no later stage's output ever appears). -/
theorem accumulated_context_is_prior_outputs (request : GenerationRequest)
    (exec : Agent → String → String → Except String String) (now : Nat)
    (k : Nat) (call : AgentCall)
    (h : (startGeneration exec now request).calls.get? k = some call) :
    call.callContext = ctxfold "" ((startGeneration exec now request).job.tasks.take k) := by
  rw [startGeneration_calls] at h
  rw [startGeneration_tasks]
  exact executeLoop_calls_context exec createAgents request.jobId (createTasks request) [] ""
    (createTasks_find request) k call h

/-- Witness for `accumulated_context_is_prior_outputs`: in a fully
successful concrete run, the third stage's call carries exactly the
concatenated outputs of the first two stages. -/
theorem accumulated_context_is_prior_outputs_witness :
    (startGeneration (fun a _ _ => Except.ok ("output of " ++ a.role)) 0
        { jobId := "jw", requirements := "r", framework := "fw",
          language := "lang" }).calls.get? 2 =
      some { agentRole := "Senior Developer",
             prompt := "Implement the system architecture as production-ready code using fw and lang",
             callContext := "\n\nProduct Manager Output:\noutput of Product Manager\n\nSolution Architect Output:\noutput of Solution Architect" } ∧
    ({ agentRole := "Senior Developer",
       prompt := "Implement the system architecture as production-ready code using fw and lang",
       callContext := "\n\nProduct Manager Output:\noutput of Product Manager\n\nSolution Architect Output:\noutput of Solution Architect" } : AgentCall).callContext =
      ctxfold ""
        ((startGeneration (fun a _ _ => Except.ok ("output of " ++ a.role)) 0
            { jobId := "jw", requirements := "r", framework := "fw",
              language := "lang" }).job.tasks.take 2) :=
  ⟨by decide,
    accumulated_context_is_prior_outputs
      { jobId := "jw", requirements := "r", framework := "fw", language := "lang" }
      (fun a _ _ => Except.ok ("output of " ++ a.role)) 0 2 _ (by decide)⟩

/-- C3: if any stage's agent invocation rejects, that stage is marked
failed, every earlier stage stays completed, every later stage stays
pending (none is ever started: the `agent_started` events stop at the
failed stage), and the job's terminal status is `failed`. -/
theorem stage_failure_aborts_job (request : GenerationRequest)
    (exec : Agent → String → String → Except String String) (now : Nat)
    (h : (startGeneration exec now request).error.isSome) :
    (startGeneration exec now request).job.status = JobStatusKind.failed ∧
    ∃ pre fl post,
      (startGeneration exec now request).job.tasks = pre ++ fl :: post ∧
      (∀ u ∈ pre, u.status = TaskStatus.completed) ∧
      fl.status = TaskStatus.failed ∧
      (∀ u ∈ post, u.status = TaskStatus.pending) ∧
      startedRoles (startGeneration exec now request).events =
        (pre ++ [fl]).map (fun u => u.agent.role) := by
  rw [startGeneration_error] at h
  refine ⟨startGeneration_status_failed exec now request h, ?_⟩
  obtain ⟨pre, fl, post, htasks, hpre, hfl, hpost, hroles⟩ :=
    executeLoop_error_decomp exec createAgents request.jobId (createTasks request) [] ""
      (createTasks_find request) (createTasks_pending request) h
  exact ⟨pre, fl, post, by rw [startGeneration_tasks, htasks], hpre, hfl, hpost,
    by rw [startGeneration_startedRoles, hroles]⟩

/-- Witness for `stage_failure_aborts_job`: a concrete run whose second
agent (the Solution Architect) rejects. -/
theorem stage_failure_aborts_job_witness :
    (startGeneration
        (fun a _ _ => if a.id = "solution_architect" then Except.error "boom"
                      else Except.ok "ok") 0
        { jobId := "jf", requirements := "r", framework := "fw",
          language := "lang" }).error.isSome ∧
    ((startGeneration
        (fun a _ _ => if a.id = "solution_architect" then Except.error "boom"
                      else Except.ok "ok") 0
        { jobId := "jf", requirements := "r", framework := "fw",
          language := "lang" }).job.status = JobStatusKind.failed ∧
    ∃ pre fl post,
      (startGeneration
          (fun a _ _ => if a.id = "solution_architect" then Except.error "boom"
                        else Except.ok "ok") 0
          { jobId := "jf", requirements := "r", framework := "fw",
            language := "lang" }).job.tasks = pre ++ fl :: post ∧
      (∀ u ∈ pre, u.status = TaskStatus.completed) ∧
      fl.status = TaskStatus.failed ∧
      (∀ u ∈ post, u.status = TaskStatus.pending) ∧
      startedRoles (startGeneration
          (fun a _ _ => if a.id = "solution_architect" then Except.error "boom"
                        else Except.ok "ok") 0
          { jobId := "jf", requirements := "r", framework := "fw",
            language := "lang" }).events =
        (pre ++ [fl]).map (fun u => u.agent.role)) :=
  ⟨by decide,
    stage_failure_aborts_job
      { jobId := "jf", requirements := "r", framework := "fw", language := "lang" }
      (fun a _ _ => if a.id = "solution_architect" then Except.error "boom"
                    else Except.ok "ok") 0 (by decide)⟩

/-- Lookup on an empty record. -/
theorem getKey_nil (k : String) : getKey [] k = none := rfl

/-- Lookup on a cons cell. -/
theorem getKey_cons (p : String × String) (rest : List (String × String)) (k : String) :
    getKey (p :: rest) k = if p.1 = k then some p.2 else getKey rest k := by
  by_cases h : p.1 = k
  · simp [getKey, List.find?_cons, h]
  · simp [getKey, List.find?_cons, h]

/-- Appending a fresh binding is found when no earlier binding matches. -/
theorem getKey_append_single (m : List (String × String)) (k v : String)
    (h : ∀ p ∈ m, p.1 ≠ k) : getKey (m ++ [(k, v)]) k = some v := by
  induction m with
  | nil => simp [getKey_cons]
  | cons p ps ih =>
    rw [List.cons_append, getKey_cons, if_neg (h p (List.mem_cons_self _ _))]
    exact ih (fun q hq => h q (List.mem_cons_of_mem _ hq))

/-- Appending a binding for a different key changes no other lookup. -/
theorem getKey_append_single_ne (m : List (String × String)) (k k' v : String)
    (hne : k' ≠ k) : getKey (m ++ [(k, v)]) k' = getKey m k' := by
  induction m with
  | nil =>
    rw [List.nil_append, getKey_cons, if_neg (fun h => hne h.symm)]
  | cons p ps ih =>
    rw [List.cons_append, getKey_cons, getKey_cons]
    by_cases hp : p.1 = k'
    · rw [if_pos hp, if_pos hp]
    · rw [if_neg hp, if_neg hp]
      exact ih

/-- Overwriting in place makes the overwritten key's lookup the new
value. -/
theorem getKey_map_overwrite (m : List (String × String)) (k v : String)
    (h : m.any (fun q => q.1 = k) = true) :
    getKey (m.map (fun p => if p.1 = k then (k, v) else p)) k = some v := by
  induction m with
  | nil => simp at h
  | cons p ps ih =>
    by_cases hp : p.1 = k
    · rw [List.map_cons, if_pos hp, getKey_cons, if_pos rfl]
    · rw [List.map_cons, if_neg hp, getKey_cons, if_neg hp]
      refine ih ?_
      simpa [List.any_cons, hp] using h

/-- Overwriting in place changes no other key's lookup. -/
theorem getKey_map_overwrite_ne (m : List (String × String)) (k k' v : String)
    (hne : k' ≠ k) :
    getKey (m.map (fun p => if p.1 = k then (k, v) else p)) k' = getKey m k' := by
  induction m with
  | nil => rfl
  | cons p ps ih =>
    by_cases hp : p.1 = k
    · rw [List.map_cons, if_pos hp, getKey_cons, getKey_cons,
        if_neg (fun h => hne h.symm), if_neg (by rw [hp]; exact fun h => hne h.symm)]
      exact ih
    · rw [List.map_cons, if_neg hp, getKey_cons, getKey_cons]
      by_cases hpk : p.1 = k'
      · rw [if_pos hpk, if_pos hpk]
      · rw [if_neg hpk, if_neg hpk]
        exact ih

/-- Assignment followed by lookup of the same key yields the assigned
value. -/
theorem getKey_setKey_same (m : List (String × String)) (k v : String) :
    getKey (setKey m k v) k = some v := by
  by_cases hany : m.any (fun q => q.1 = k) = true
  · rw [setKey, if_pos hany]
    exact getKey_map_overwrite m k v hany
  · rw [setKey, if_neg hany]
    refine getKey_append_single m k v fun p hp hpk => ?_
    exact hany (List.any_eq_true.2 ⟨p, hp, by simp [hpk]⟩)

/-- Assignment leaves every other key's lookup unchanged. -/
theorem getKey_setKey_ne (m : List (String × String)) (k k' v : String)
    (hne : k' ≠ k) : getKey (setKey m k v) k' = getKey m k' := by
  by_cases hany : m.any (fun q => q.1 = k) = true
  · rw [setKey, if_pos hany]
    exact getKey_map_overwrite_ne m k k' v hne
  · rw [setKey, if_neg hany]
    exact getKey_append_single_ne m k k' v hne

/-- Assignment never removes a present key. -/
theorem getKey_isSome_setKey (m : List (String × String)) (k k' v : String)
    (h : (getKey m k').isSome) : (getKey (setKey m k v) k').isSome := by
  by_cases hk : k' = k
  · subst hk
    rw [getKey_setKey_same]
    rfl
  · rw [getKey_setKey_ne m k k' v hk]
    exact h

/-- Distinct head characters make strings distinct. -/
theorem ne_of_data_head (s1 s2 : String) (c1 c2 : Char)
    (h1 : s1.data.head? = some c1) (h2 : s2.data.head? = some c2)
    (hne : c1 ≠ c2) : s1 ≠ s2 := by
  intro h
  subst h
  rw [h1] at h2
  exact hne (Option.some.inj h2)

/-- Head character of a `tests.<ext>` file name. -/
theorem head_tests (ext : String) : ("tests." ++ ext).data.head? = some 't' := by
  rw [String.data_append]
  rfl

/-- Head character of a `main.<ext>` file name. -/
theorem head_main (ext : String) : ("main." ++ ext).data.head? = some 'm' := by
  rw [String.data_append]
  rfl

/-- Last element of a list ending in three explicit characters. -/
theorem reverse_head_append3 (l : List Char) (a b c : Char) :
    ((l ++ [a, b, c]).reverse).head? = some c := by
  rw [List.reverse_append]
  rfl

/-- `Char.ofNat` round-trips over the lower-case ASCII letters. -/
theorem charOfNat_toNat (m : Nat) (h1 : 97 ≤ m) (h2 : m ≤ 122) :
    (Char.ofNat m).toNat = m := by
  have hv : m.isValidChar := Or.inl (by omega)
  simp only [Char.ofNat, dif_pos hv, Char.ofNatAux, Char.toNat, UInt32.ofNat',
    UInt32.toNat, BitVec.toNat_ofNatLt]

/-- Lower-casing never produces the capital letter `T`. -/
theorem toLower_ne_T (c : Char) : Char.toLower c ≠ 'T' := by
  simp only [Char.toLower]
  intro hc
  by_cases h : c.toNat ≥ 65 ∧ c.toNat ≤ 90
  · rw [if_pos h] at hc
    have ht := charOfNat_toNat (c.toNat + 32) (by omega) (by omega)
    rw [hc] at ht
    have h84 : ('T'.toNat : Nat) = 84 := by decide
    omega
  · rw [if_neg h] at hc
    subst hc
    exact h (by decide)

/-- Every character of `replaceRuns p r l` is the replacement character or
a character of `l`. -/
theorem mem_replaceRuns (p : Char → Bool) (r : Char) (l : List Char) :
    ∀ c ∈ replaceRuns p r l, c = r ∨ c ∈ l := by
  induction l using replaceRuns.induct p r with
  | case1 => simp [replaceRuns]
  | case2 c₀ cs hp ih =>
    intro c hc
    rw [replaceRuns, if_pos hp] at hc
    rcases List.mem_cons.1 hc with rfl | hc2
    · exact Or.inl rfl
    · rcases ih c hc2 with h | h
      · exact Or.inl h
      · exact Or.inr (List.mem_cons_of_mem _ (List.drop_subset _ _ h))
  | case3 c₀ cs hp ih =>
    intro c hc
    rw [replaceRuns, if_neg hp] at hc
    rcases List.mem_cons.1 hc with rfl | hc2
    · exact Or.inr (List.mem_cons_self _ _)
    · rcases ih c hc2 with h | h
      · exact Or.inl h
      · exact Or.inr (List.mem_cons_of_mem _ h)

/-- The extension table only ever answers one of its fourteen entries. -/
theorem getFileExtension_mem (lang : String) :
    getFileExtension lang ∈ (["js", "ts", "py", "java", "cs", "cpp", "c", "go",
      "rs", "php", "rb", "swift", "kt", "txt"] : List String) := by
  unfold getFileExtension
  by_cases h0 : lowerString lang = "javascript"
  · rw [if_pos h0]
    decide
  · rw [if_neg h0]
    by_cases h1 : lowerString lang = "typescript"
    · rw [if_pos h1]
      decide
    · rw [if_neg h1]
      by_cases h2 : lowerString lang = "python"
      · rw [if_pos h2]
        decide
      · rw [if_neg h2]
        by_cases h3 : lowerString lang = "java"
        · rw [if_pos h3]
          decide
        · rw [if_neg h3]
          by_cases h4 : lowerString lang = "csharp"
          · rw [if_pos h4]
            decide
          · rw [if_neg h4]
            by_cases h5 : lowerString lang = "cpp"
            · rw [if_pos h5]
              decide
            · rw [if_neg h5]
              by_cases h6 : lowerString lang = "c"
              · rw [if_pos h6]
                decide
              · rw [if_neg h6]
                by_cases h7 : lowerString lang = "go"
                · rw [if_pos h7]
                  decide
                · rw [if_neg h7]
                  by_cases h8 : lowerString lang = "rust"
                  · rw [if_pos h8]
                    decide
                  · rw [if_neg h8]
                    by_cases h9 : lowerString lang = "php"
                    · rw [if_pos h9]
                      decide
                    · rw [if_neg h9]
                      by_cases h10 : lowerString lang = "ruby"
                      · rw [if_pos h10]
                        decide
                      · rw [if_neg h10]
                        by_cases h11 : lowerString lang = "swift"
                        · rw [if_pos h11]
                          decide
                        · rw [if_neg h11]
                          by_cases h12 : lowerString lang = "kotlin"
                          · rw [if_pos h12]
                            decide
                          · rw [if_neg h12]
                            decide

/-- The default artifact name (lower-cased role plus `.md`) is never
`TEST_PLAN.md`: lower-casing produces no capital `T`. -/
theorem defaultArtifactName_ne_testPlan (role : String) :
    defaultArtifactName role ≠ "TEST_PLAN.md" := by
  intro h
  have hd := congrArg String.data h
  rw [defaultArtifactName, String.data_append] at hd
  cases hl : replaceRuns isJsWhitespace '_' (lowerString role).data with
  | nil =>
    rw [hl] at hd
    exact absurd hd (by decide)
  | cons c cs =>
    rw [hl] at hd
    have hc : c = 'T' := by
      have hh := congrArg List.head? hd
      simpa using hh
    have hcmem : c = '_' ∨ c ∈ (lowerString role).data :=
      mem_replaceRuns _ _ _ c (hl ▸ List.mem_cons_self c cs)
    rcases hcmem with rfl | hmem
    · exact absurd hc (by decide)
    · have hdata : (lowerString role).data = role.data.map Char.toLower := rfl
      rw [hdata] at hmem
      obtain ⟨d, _, rfl⟩ := List.mem_map.1 hmem
      exact toLower_ne_T d hc

/-- The default artifact name is never a `tests.<ext>` name: every table
extension ends in a letter other than `d`, while the default name ends in
`.md`. -/
theorem defaultArtifactName_ne_tests (role lang : String) :
    defaultArtifactName role ≠ "tests." ++ getFileExtension lang := by
  intro h
  have hd := congrArg String.data h
  rw [defaultArtifactName, String.data_append, String.data_append] at hd
  have hL : (("tests.".data ++ (getFileExtension lang).data).reverse).head? = some 'd' := by
    rw [← hd]
    exact reverse_head_append3 _ '.' 'm' 'd'
  have hmem := getFileExtension_mem lang
  simp only [List.mem_cons, List.not_mem_nil, or_false] at hmem
  rcases hmem with h1 | h1 | h1 | h1 | h1 | h1 | h1 | h1 | h1 | h1 | h1 | h1 | h1 | h1 <;>
    rw [h1] at hL <;> exact absurd hL (by decide)

/-- A non-QA output never touches `TEST_PLAN.md` or the `tests.<ext>`
entry. -/
theorem compileStep_preserves_qakeys (request : GenerationRequest)
    (m : List (String × String)) (o : RoleOutput)
    (hq : lowerString o.role ≠ "qa engineer") :
    getKey (compileStep (getFileExtension request.language) request m o) "TEST_PLAN.md" =
      getKey m "TEST_PLAN.md" ∧
    getKey (compileStep (getFileExtension request.language) request m o)
        ("tests." ++ getFileExtension request.language) =
      getKey m ("tests." ++ getFileExtension request.language) := by
  rw [compileStep]
  by_cases h1 : lowerString o.role = "product manager"
  · rw [if_pos h1]
    exact ⟨getKey_setKey_ne _ _ _ _ (by decide),
      getKey_setKey_ne _ _ _ _ (ne_of_data_head
        ("tests." ++ getFileExtension request.language) "PROJECT_SPECIFICATION.md"
        't' 'P' (head_tests _) rfl (by decide))⟩
  · rw [if_neg h1]
    by_cases h2 : lowerString o.role = "solution architect"
    · rw [if_pos h2]
      exact ⟨getKey_setKey_ne _ _ _ _ (by decide),
        getKey_setKey_ne _ _ _ _ (ne_of_data_head
          ("tests." ++ getFileExtension request.language) "ARCHITECTURE.md"
          't' 'A' (head_tests _) rfl (by decide))⟩
    · rw [if_neg h2]
      by_cases h3 : lowerString o.role = "senior developer"
      · rw [if_pos h3]
        constructor
        · rw [getKey_setKey_ne _ _ _ _ (by decide),
            getKey_setKey_ne _ _ _ _ (by decide),
            getKey_setKey_ne _ _ _ _
              (ne_of_data_head "TEST_PLAN.md"
                ("main." ++ getFileExtension request.language)
                'T' 'm' rfl (head_main _) (by decide))]
        · rw [getKey_setKey_ne _ _ _ _
              (ne_of_data_head ("tests." ++ getFileExtension request.language)
                "package.json" 't' 'p' (head_tests _) rfl (by decide)),
            getKey_setKey_ne _ _ _ _
              (ne_of_data_head ("tests." ++ getFileExtension request.language)
                "README.md" 't' 'R' (head_tests _) rfl (by decide)),
            getKey_setKey_ne _ _ _ _
              (ne_of_data_head ("tests." ++ getFileExtension request.language)
                ("main." ++ getFileExtension request.language)
                't' 'm' (head_tests _) (head_main _) (by decide))]
      · rw [if_neg h3, if_neg hq]
        exact ⟨getKey_setKey_ne _ _ _ _ (Ne.symm (defaultArtifactName_ne_testPlan _)),
          getKey_setKey_ne _ _ _ _ (Ne.symm (defaultArtifactName_ne_tests _ _))⟩

/-- A QA output writes its raw content to both `tests.<ext>` and
`TEST_PLAN.md`. -/
theorem compileStep_qa (request : GenerationRequest)
    (m : List (String × String)) (o : RoleOutput)
    (hq : lowerString o.role = "qa engineer") :
    getKey (compileStep (getFileExtension request.language) request m o) "TEST_PLAN.md" =
      some o.content ∧
    getKey (compileStep (getFileExtension request.language) request m o)
        ("tests." ++ getFileExtension request.language) = some o.content := by
  rw [compileStep, if_neg (by rw [hq]; decide), if_neg (by rw [hq]; decide),
    if_neg (by rw [hq]; decide), if_pos hq]
  refine ⟨getKey_setKey_same _ _ _, ?_⟩
  rw [getKey_setKey_ne _ _ _ _
    (ne_of_data_head ("tests." ++ getFileExtension request.language) "TEST_PLAN.md"
      't' 'T' (head_tests _) rfl (by decide))]
  exact getKey_setKey_same _ _ _

/-- A Product Manager output writes `PROJECT_SPECIFICATION.md`. -/
theorem compileStep_pm (ext : String) (request : GenerationRequest)
    (m : List (String × String)) (o : RoleOutput)
    (h : lowerString o.role = "product manager") :
    getKey (compileStep ext request m o) "PROJECT_SPECIFICATION.md" = some o.content := by
  rw [compileStep, if_pos h]
  exact getKey_setKey_same _ _ _

/-- A Solution Architect output writes `ARCHITECTURE.md`. -/
theorem compileStep_arch (ext : String) (request : GenerationRequest)
    (m : List (String × String)) (o : RoleOutput)
    (h : lowerString o.role = "solution architect") :
    getKey (compileStep ext request m o) "ARCHITECTURE.md" = some o.content := by
  rw [compileStep, if_neg (by rw [h]; decide), if_pos h]
  exact getKey_setKey_same _ _ _

/-- A Senior Developer output writes `main.<ext>`. -/
theorem compileStep_dev (ext : String) (request : GenerationRequest)
    (m : List (String × String)) (o : RoleOutput)
    (h : lowerString o.role = "senior developer") :
    getKey (compileStep ext request m o) ("main." ++ ext) = some o.content := by
  rw [compileStep, if_neg (by rw [h]; decide), if_neg (by rw [h]; decide), if_pos h]
  rw [getKey_setKey_ne _ _ _ _
      (ne_of_data_head ("main." ++ ext) "package.json" 'm' 'p' (head_main _) rfl (by decide)),
    getKey_setKey_ne _ _ _ _
      (ne_of_data_head ("main." ++ ext) "README.md" 'm' 'R' (head_main _) rfl (by decide))]
  exact getKey_setKey_same _ _ _

/-- No `compileStep` removes a present artifact. -/
theorem compileStep_isSome (ext : String) (request : GenerationRequest)
    (m : List (String × String)) (o : RoleOutput) (k' : String)
    (h : (getKey m k').isSome) :
    (getKey (compileStep ext request m o) k').isSome := by
  rw [compileStep]
  by_cases h1 : lowerString o.role = "product manager"
  · rw [if_pos h1]
    exact getKey_isSome_setKey _ _ _ _ h
  · rw [if_neg h1]
    by_cases h2 : lowerString o.role = "solution architect"
    · rw [if_pos h2]
      exact getKey_isSome_setKey _ _ _ _ h
    · rw [if_neg h2]
      by_cases h3 : lowerString o.role = "senior developer"
      · rw [if_pos h3]
        exact getKey_isSome_setKey _ _ _ _
          (getKey_isSome_setKey _ _ _ _ (getKey_isSome_setKey _ _ _ _ h))
      · rw [if_neg h3]
        by_cases h4 : lowerString o.role = "qa engineer"
        · rw [if_pos h4]
          exact getKey_isSome_setKey _ _ _ _ (getKey_isSome_setKey _ _ _ _ h)
        · rw [if_neg h4]
          exact getKey_isSome_setKey _ _ _ _ h

/-- Folding more outputs removes no present artifact. -/
theorem compileFold_isSome (ext : String) (request : GenerationRequest) :
    ∀ (outputs : List RoleOutput) (m : List (String × String)) (k' : String),
      (getKey m k').isSome →
      (getKey (outputs.foldl (compileStep ext request) m) k').isSome := by
  intro outputs
  induction outputs with
  | nil => intro m k' h; exact h
  | cons o os ih =>
    intro m k' h
    exact ih _ _ (compileStep_isSome ext request m o k' h)

/-- If some output of the list carries the selected role and that role's
step sets `key`, the folded artifact record has `key`. -/
theorem compileFold_presence (request : GenerationRequest) (rolename key : String)
    (hset : ∀ m o, lowerString o.role = rolename →
      (getKey (compileStep (getFileExtension request.language) request m o) key).isSome) :
    ∀ (outputs : List RoleOutput) (m : List (String × String)),
      (∃ o ∈ outputs, lowerString o.role = rolename) →
      (getKey (outputs.foldl (compileStep (getFileExtension request.language) request) m)
        key).isSome := by
  intro outputs
  induction outputs with
  | nil =>
    rintro m ⟨o, ho, _⟩
    exact absurd ho (List.not_mem_nil o)
  | cons o os ih =>
    rintro m ⟨o', ho', hrole⟩
    by_cases hro : lowerString o.role = rolename
    · exact compileFold_isSome _ request os _ key (hset m o hro)
    · rcases List.mem_cons.1 ho' with rfl | ho2
      · exact absurd hrole hro
      · exact ih _ ⟨o', ho2, hrole⟩

/-- Folding outputs that contain no QA role leaves the two QA artifact
entries unchanged. -/
theorem compileFold_no_qa (request : GenerationRequest) :
    ∀ (outputs : List RoleOutput) (m : List (String × String)),
      (∀ o ∈ outputs, lowerString o.role ≠ "qa engineer") →
      getKey (outputs.foldl (compileStep (getFileExtension request.language) request) m)
          "TEST_PLAN.md" = getKey m "TEST_PLAN.md" ∧
      getKey (outputs.foldl (compileStep (getFileExtension request.language) request) m)
          ("tests." ++ getFileExtension request.language) =
        getKey m ("tests." ++ getFileExtension request.language) := by
  intro outputs
  induction outputs with
  | nil => intro m _; exact ⟨rfl, rfl⟩
  | cons o os ih =>
    intro m hno
    have hstep := compileStep_preserves_qakeys request m o (hno o (List.mem_cons_self _ _))
    have hrest := ih (compileStep (getFileExtension request.language) request m o)
      (fun v hv => hno v (List.mem_cons_of_mem _ hv))
    exact ⟨hrest.1.trans hstep.1, hrest.2.trans hstep.2⟩

/-- Folding outputs containing a QA role ends with both QA artifact entries
equal to some QA output's raw content. -/
theorem compileFold_qa (request : GenerationRequest) :
    ∀ (outputs : List RoleOutput) (m : List (String × String)),
      (∃ o ∈ outputs, lowerString o.role = "qa engineer") →
      ∃ o, o ∈ outputs ∧ lowerString o.role = "qa engineer" ∧
        getKey (outputs.foldl (compileStep (getFileExtension request.language) request) m)
            "TEST_PLAN.md" = some o.content ∧
        getKey (outputs.foldl (compileStep (getFileExtension request.language) request) m)
            ("tests." ++ getFileExtension request.language) = some o.content := by
  intro outputs
  induction outputs with
  | nil =>
    rintro m ⟨o, ho, _⟩
    exact absurd ho (List.not_mem_nil o)
  | cons o os ih =>
    rintro m ⟨o', ho', hrole⟩
    by_cases hos : ∃ u ∈ os, lowerString u.role = "qa engineer"
    · obtain ⟨u, hu, hur, h1, h2⟩ :=
        ih (compileStep (getFileExtension request.language) request m o) hos
      exact ⟨u, List.mem_cons_of_mem _ hu, hur, h1, h2⟩
    · have hoq : lowerString o.role = "qa engineer" := by
        rcases List.mem_cons.1 ho' with rfl | hmem
        · exact hrole
        · exact absurd ⟨o', hmem, hrole⟩ hos
      have hno : ∀ u ∈ os, lowerString u.role ≠ "qa engineer" :=
        fun u hu hq => hos ⟨u, hu, hq⟩
      have hfold := compileFold_no_qa request os
        (compileStep (getFileExtension request.language) request m o) hno
      have hstep := compileStep_qa request m o hoq
      exact ⟨o, List.mem_cons_self _ _, hoq,
        hfold.1.trans hstep.1, hfold.2.trans hstep.2⟩

/-- C9: whenever the agent outputs contain a QA Engineer output, the
assembled artifact record's `TEST_PLAN.md` entry and its `tests.<ext>`
entry both hold exactly the same string — a QA output's raw content,
verbatim. -/
theorem testPlan_matches_tests_file (outputs : List RoleOutput)
    (request : GenerationRequest)
    (h : ∃ o ∈ outputs, lowerString o.role = "qa engineer") :
    ∃ o, o ∈ outputs ∧ lowerString o.role = "qa engineer" ∧
      getKey (compileCodeFiles outputs request) "TEST_PLAN.md" = some o.content ∧
      getKey (compileCodeFiles outputs request)
        ("tests." ++ getFileExtension request.language) = some o.content := by
  rw [compileCodeFiles]
  exact compileFold_qa request outputs [] h

/-- Witness for `testPlan_matches_tests_file` at a concrete output list. -/
theorem testPlan_matches_tests_file_witness :
    (∃ o ∈ [({ role := "Product Manager", content := "spec text" } : RoleOutput),
            { role := "QA Engineer", content := "qa text" }],
      lowerString o.role = "qa engineer") ∧
    ∃ o, o ∈ [({ role := "Product Manager", content := "spec text" } : RoleOutput),
              { role := "QA Engineer", content := "qa text" }] ∧
      lowerString o.role = "qa engineer" ∧
      getKey (compileCodeFiles
          [{ role := "Product Manager", content := "spec text" },
           { role := "QA Engineer", content := "qa text" }]
          { jobId := "j9", requirements := "r", framework := "fw",
            language := "python" }) "TEST_PLAN.md" = some o.content ∧
      getKey (compileCodeFiles
          [{ role := "Product Manager", content := "spec text" },
           { role := "QA Engineer", content := "qa text" }]
          { jobId := "j9", requirements := "r", framework := "fw",
            language := "python" })
        ("tests." ++ getFileExtension "python") = some o.content :=
  ⟨by decide,
    testPlan_matches_tests_file
      [{ role := "Product Manager", content := "spec text" },
       { role := "QA Engineer", content := "qa text" }]
      { jobId := "j9", requirements := "r", framework := "fw", language := "python" }
      (by decide)⟩

/-- The final task list of any run still carries the four fixed roles in
order. -/
theorem startGeneration_task_roles (exec : Agent → String → String → Except String String)
    (now : Nat) (request : GenerationRequest) :
    (startGeneration exec now request).job.tasks.map (fun t => t.agent.role) =
      ["Product Manager", "Solution Architect", "Senior Developer", "QA Engineer"] := by
  rw [startGeneration_tasks]
  have h1 : ∀ l : List Task,
      l.map (fun t => t.agent.role) = (l.map (fun t => t.agent)).map (fun a => a.role) :=
    fun l => by rw [List.map_map]; rfl
  rw [h1, executeLoop_agents, ← h1, createTasks_roles]

/-- C5 (amended): when every stage's agent call succeeds, the job's
terminal status is `completed`, and the artifact record that
`compileCodeFiles` assembles from the per-role outputs (the enhanced
pipeline's assembly) contains `PROJECT_SPECIFICATION.md`,
`ARCHITECTURE.md`, `main.<ext>` and `tests.<ext>`, with `<ext>` the
case-insensitive table lookup of the submitted language defaulting to
`txt`.  (The `CrewService` itself instead attaches the fixed placeholder
list of `generateCodeFiles` — see the counterexample.) -/
theorem all_success_completed_artifacts (request : GenerationRequest)
    (exec : Agent → String → String → Except String String) (now : Nat)
    (h : (startGeneration exec now request).error = none) :
    (startGeneration exec now request).job.status = JobStatusKind.completed ∧
    (getKey (compileCodeFiles ((startGeneration exec now request).job.tasks.map
        (fun t => { role := t.agent.role, content := t.output.getD "" })) request)
      "PROJECT_SPECIFICATION.md").isSome ∧
    (getKey (compileCodeFiles ((startGeneration exec now request).job.tasks.map
        (fun t => { role := t.agent.role, content := t.output.getD "" })) request)
      "ARCHITECTURE.md").isSome ∧
    (getKey (compileCodeFiles ((startGeneration exec now request).job.tasks.map
        (fun t => { role := t.agent.role, content := t.output.getD "" })) request)
      ("main." ++ getFileExtension request.language)).isSome ∧
    (getKey (compileCodeFiles ((startGeneration exec now request).job.tasks.map
        (fun t => { role := t.agent.role, content := t.output.getD "" })) request)
      ("tests." ++ getFileExtension request.language)).isSome := by
  have herr : (executeLoop exec createAgents request.jobId []
      (createTasks request) "").error = none := by
    rw [← startGeneration_error exec now request]
    exact h
  have hroles := startGeneration_task_roles exec now request
  have hex : ∀ role : String,
      role ∈ (startGeneration exec now request).job.tasks.map (fun t => t.agent.role) →
      ∃ o ∈ (startGeneration exec now request).job.tasks.map
          (fun t => ({ role := t.agent.role, content := t.output.getD "" } : RoleOutput)),
        o.role = role := by
    intro role hrole
    obtain ⟨t, ht, rfl⟩ := List.mem_map.1 hrole
    exact ⟨_, List.mem_map_of_mem _ ht, rfl⟩
  refine ⟨startGeneration_status_completed exec now request herr, ?_, ?_, ?_, ?_⟩
  · obtain ⟨o, ho, hor⟩ := hex "Product Manager" (by rw [hroles]; decide)
    rw [compileCodeFiles]
    refine compileFold_presence request "product manager" "PROJECT_SPECIFICATION.md"
      (fun m u hu => ?_) _ [] ⟨o, ho, by rw [hor]; decide⟩
    rw [compileStep_pm _ request m u hu]
    rfl
  · obtain ⟨o, ho, hor⟩ := hex "Solution Architect" (by rw [hroles]; decide)
    rw [compileCodeFiles]
    refine compileFold_presence request "solution architect" "ARCHITECTURE.md"
      (fun m u hu => ?_) _ [] ⟨o, ho, by rw [hor]; decide⟩
    rw [compileStep_arch _ request m u hu]
    rfl
  · obtain ⟨o, ho, hor⟩ := hex "Senior Developer" (by rw [hroles]; decide)
    rw [compileCodeFiles]
    refine compileFold_presence request "senior developer"
      ("main." ++ getFileExtension request.language)
      (fun m u hu => ?_) _ [] ⟨o, ho, by rw [hor]; decide⟩
    rw [compileStep_dev _ request m u hu]
    rfl
  · obtain ⟨o, ho, hor⟩ := hex "QA Engineer" (by rw [hroles]; decide)
    rw [compileCodeFiles]
    refine compileFold_presence request "qa engineer"
      ("tests." ++ getFileExtension request.language)
      (fun m u hu => ?_) _ [] ⟨o, ho, by rw [hor]; decide⟩
    rw [(compileStep_qa request m u hu).2]
    rfl

/-- Witness for `all_success_completed_artifacts` at a concrete all-success
run in Python. -/
theorem all_success_completed_artifacts_witness :
    (startGeneration (fun a _ _ => Except.ok ("output of " ++ a.role)) 0
        { jobId := "j5", requirements := "Build a todo app", framework := "react",
          language := "python" }).error = none ∧
    ((startGeneration (fun a _ _ => Except.ok ("output of " ++ a.role)) 0
        { jobId := "j5", requirements := "Build a todo app", framework := "react",
          language := "python" }).job.status = JobStatusKind.completed ∧
    (getKey (compileCodeFiles ((startGeneration (fun a _ _ => Except.ok ("output of " ++ a.role)) 0
        { jobId := "j5", requirements := "Build a todo app", framework := "react",
          language := "python" }).job.tasks.map
        (fun t => { role := t.agent.role, content := t.output.getD "" }))
        { jobId := "j5", requirements := "Build a todo app", framework := "react",
          language := "python" })
      "PROJECT_SPECIFICATION.md").isSome ∧
    (getKey (compileCodeFiles ((startGeneration (fun a _ _ => Except.ok ("output of " ++ a.role)) 0
        { jobId := "j5", requirements := "Build a todo app", framework := "react",
          language := "python" }).job.tasks.map
        (fun t => { role := t.agent.role, content := t.output.getD "" }))
        { jobId := "j5", requirements := "Build a todo app", framework := "react",
          language := "python" })
      "ARCHITECTURE.md").isSome ∧
    (getKey (compileCodeFiles ((startGeneration (fun a _ _ => Except.ok ("output of " ++ a.role)) 0
        { jobId := "j5", requirements := "Build a todo app", framework := "react",
          language := "python" }).job.tasks.map
        (fun t => { role := t.agent.role, content := t.output.getD "" }))
        { jobId := "j5", requirements := "Build a todo app", framework := "react",
          language := "python" })
      ("main." ++ getFileExtension "python")).isSome ∧
    (getKey (compileCodeFiles ((startGeneration (fun a _ _ => Except.ok ("output of " ++ a.role)) 0
        { jobId := "j5", requirements := "Build a todo app", framework := "react",
          language := "python" }).job.tasks.map
        (fun t => { role := t.agent.role, content := t.output.getD "" }))
        { jobId := "j5", requirements := "Build a todo app", framework := "react",
          language := "python" })
      ("tests." ++ getFileExtension "python")).isSome) :=
  ⟨by decide,
    all_success_completed_artifacts
      { jobId := "j5", requirements := "Build a todo app", framework := "react",
        language := "python" }
      (fun a _ _ => Except.ok ("output of " ++ a.role)) 0 (by decide)⟩

/-- C5 counterexample: on a fully successful concrete job, the
`CrewService`'s own artifact assembly, `generateCodeFiles`, returns the
fixed placeholder file list and contains neither
`PROJECT_SPECIFICATION.md` nor `main.py` (the submitted language being
Python) — so the claim is false of the artifact set the `CrewService`
actually attaches to its completed jobs. -/
theorem generateCodeFiles_placeholder_counterexample :
    (startGeneration (fun a _ _ => Except.ok ("output of " ++ a.role)) 0
        { jobId := "jc", requirements := "Build a todo app", framework := "react",
          language := "python" }).job.status = JobStatusKind.completed ∧
    (generateCodeFiles (startGeneration (fun a _ _ => Except.ok ("output of " ++ a.role)) 0
        { jobId := "jc", requirements := "Build a todo app", framework := "react",
          language := "python" }).job).map (fun f => f.path) =
      ["src/App.tsx", "src/components/Header.tsx", "package.json"] ∧
    ¬ "PROJECT_SPECIFICATION.md" ∈
      (generateCodeFiles (startGeneration (fun a _ _ => Except.ok ("output of " ++ a.role)) 0
          { jobId := "jc", requirements := "Build a todo app", framework := "react",
            language := "python" }).job).map (fun f => f.path) ∧
    ¬ ("main." ++ getFileExtension "python") ∈
      (generateCodeFiles (startGeneration (fun a _ _ => Except.ok ("output of " ++ a.role)) 0
          { jobId := "jc", requirements := "Build a todo app", framework := "react",
            language := "python" }).job).map (fun f => f.path) := by
  refine ⟨by decide, rfl, by decide, by decide⟩

end CrewsLive
